import Mathlib

/-!
Verification of the hyp-studio packaging CLI.

This file embeds the data model and the operations of the repository
(`packages/cli/apps.js`, `packages/cli/worlds.js`,
`packages/cli/rollupManifestPlugin.js`) as executable Lean definitions and
proves or refutes the frozen specification claims about them.

Modelling conventions:
* A JavaScript string is a `List Nat` of UTF-16 code units.
* A byte buffer (`ArrayBuffer` / `Uint8Array`) is a `List Nat` of bytes.
* JSON values are the inductive `Json` below; numbers are restricted to
  integers (the repository only ever stores integer sizes and versions;
  floating point is out of scope for the embedding).
* Filesystems are modelled as lookup functions from paths to optional byte
  contents plus a directory-existence predicate.
* The sha256 primitive is an external collaborator; operations that hash are
  parameterised by an arbitrary deterministic `hashFn` over the content.
-/

/-- Code units of an ASCII Lean string literal, used to write the string
constants appearing in the source. -/
def jstr (s : String) : List Nat := s.data.map Char.toNat

mutual

/-- A JSON value (and, via duck typing, any JavaScript data object handled by
the CLI).  Numbers are modelled as integers. -/
inductive Json where
  | null : Json
  | bool (b : Bool) : Json
  | num (n : Int) : Json
  | str (s : List Nat) : Json
  | arr (elems : JsonList) : Json
  | obj (fields : JsonFields) : Json

/-- A list of JSON values (array elements). -/
inductive JsonList where
  | nil : JsonList
  | cons (hd : Json) (tl : JsonList) : JsonList

/-- An ordered association list of JSON object fields. -/
inductive JsonFields where
  | nil : JsonFields
  | cons (name : List Nat) (val : Json) (tl : JsonFields) : JsonFields

end

/-- Build a `JsonList` from a Lean list. -/
def JsonList.ofList : List Json → JsonList
  | [] => .nil
  | j :: js => .cons j (JsonList.ofList js)

/-- Build `JsonFields` from a Lean association list. -/
def JsonFields.ofList : List (List Nat × Json) → JsonFields
  | [] => .nil
  | (n, v) :: fs => .cons n v (JsonFields.ofList fs)

/-- The Lean list underlying a `JsonList`. -/
def JsonList.toList : JsonList → List Json
  | .nil => []
  | .cons j js => j :: JsonList.toList js

/-- The Lean association list underlying `JsonFields`. -/
def JsonFields.toList : JsonFields → List (List Nat × Json)
  | .nil => []
  | .cons n v fs => (n, v) :: JsonFields.toList fs

/-- Property access `o[key]` on a parsed JSON object.  `JSON.parse` keeps the
last of duplicate keys, so lookup returns the last matching field; on
non-objects and absent keys it returns `none` (JavaScript `undefined`). -/
def Json.get : Json → List Nat → Option Json
  | .obj fs, key => go fs key
  | _, _ => none
where
  go : JsonFields → List Nat → Option Json
    | .nil, _ => none
    | .cons n v tl, key =>
      match go tl key with
      | some r => some r
      | none => if n = key then some v else none

/-- Property assignment `o[key] = v` on a JSON object: replaces the value in
place when the key is present (at every occurrence, which on the unique-keyed
objects `JSON.parse` produces is the single occurrence), and appends the
field at the end when the key is absent — exactly JavaScript's property-order
behaviour.  On non-objects it is the identity. -/
def Json.set : Json → List Nat → Json → Json
  | .obj fs, key, v => .obj (go fs key v)
  | j, _, _ => j
where
  rep : JsonFields → List Nat → Json → JsonFields
    | .nil, _, _ => .nil
    | .cons n w tl, key, v =>
      .cons n (if n = key then v else w) (rep tl key v)
  go : JsonFields → List Nat → Json → JsonFields
    | .nil, key, v => .cons key v .nil
    | .cons n w tl, key, v =>
      if n = key then .cons n v (rep tl key v) else .cons n w (go tl key v)

/-- JavaScript truthiness of a value (`undefined`, i.e. an absent field, is
handled at use sites via `Option`). -/
def Json.truthy : Json → Bool
  | .null => false
  | .bool b => b
  | .num n => n ≠ 0
  | .str s => s ≠ []
  | .arr _ => true
  | .obj _ => true

/-- Truthiness of a possibly-absent value: `undefined` is falsy. -/
def jsTruthy : Option Json → Bool
  | none => false
  | some j => j.truthy

/-- ASCII code of the hexadecimal digit `d` (lower case), as produced by
JavaScript `\u....` escapes in `JSON.stringify`. -/
def hexDigitChar (d : Nat) : Nat :=
  if d < 10 then 48 + d else 87 + d

/-- Decimal digits (ASCII codes) of a natural number, most significant first;
fuel-structured so that it evaluates by kernel reduction. -/
def natDigitsAux : Nat → Nat → List Nat → List Nat
  | 0, _, acc => acc
  | fuel + 1, n, acc =>
    if n < 10 then (48 + n) :: acc
    else natDigitsAux fuel (n / 10) ((48 + n % 10) :: acc)

/-- Decimal representation (ASCII codes) of a natural number. -/
def natDigits (n : Nat) : List Nat := natDigitsAux (n + 1) n []

/-- Decimal representation of an integer, as printed by `JSON.stringify` for
integral numbers. -/
def intRepr (n : Int) : List Nat :=
  if n < 0 then 45 :: natDigits n.natAbs else natDigits n.natAbs

/-- String-body escaping performed by `JSON.stringify`: `"` and `\` get a
backslash, the control characters with short escapes use them, the remaining
control characters become `\u00..` escapes, and every other code unit is
emitted verbatim.  (Lone-surrogate escaping, irrelevant to every claim, is not
modelled.) -/
def escapeUnits : List Nat → List Nat
  | [] => []
  | c :: rest =>
    if c = 34 then 92 :: 34 :: escapeUnits rest
    else if c = 92 then 92 :: 92 :: escapeUnits rest
    else if c = 8 then 92 :: 98 :: escapeUnits rest
    else if c = 9 then 92 :: 116 :: escapeUnits rest
    else if c = 10 then 92 :: 110 :: escapeUnits rest
    else if c = 12 then 92 :: 102 :: escapeUnits rest
    else if c = 13 then 92 :: 114 :: escapeUnits rest
    else if c < 32 then
      92 :: 117 :: 48 :: 48 :: hexDigitChar (c / 16) :: hexDigitChar (c % 16) ::
        escapeUnits rest
    else c :: escapeUnits rest

mutual

/-- `JSON.stringify` (no indentation), producing the UTF-16 code units of the
serialized text. -/
def Json.stringify : Json → List Nat
  | .null => [110, 117, 108, 108]
  | .bool true => [116, 114, 117, 101]
  | .bool false => [102, 97, 108, 115, 101]
  | .num n => intRepr n
  | .str s => 34 :: escapeUnits s ++ [34]
  | .arr elems => 91 :: JsonList.stringify elems ++ [93]
  | .obj fields => 123 :: JsonFields.stringify fields ++ [125]

/-- Comma-separated serialization of array elements. -/
def JsonList.stringify : JsonList → List Nat
  | .nil => []
  | .cons j .nil => Json.stringify j
  | .cons j (.cons k tl) =>
    Json.stringify j ++ 44 :: JsonList.stringify (.cons k tl)

/-- Comma-separated serialization of object fields. -/
def JsonFields.stringify : JsonFields → List Nat
  | .nil => []
  | .cons n v .nil => 34 :: escapeUnits n ++ [34, 58] ++ Json.stringify v
  | .cons n v (.cons m w tl) =>
    34 :: escapeUnits n ++ [34, 58] ++ Json.stringify v ++
      44 :: JsonFields.stringify (.cons m w tl)

end

/-- JSON whitespace accepted by `JSON.parse`. -/
def isJsonWs (c : Nat) : Bool := c = 32 || c = 9 || c = 10 || c = 13

/-- Skip leading JSON whitespace. -/
def skipWs : List Nat → List Nat
  | [] => []
  | c :: rest => if isJsonWs c then skipWs rest else c :: rest

/-- A decimal-digit code unit. -/
def isDigitUnit (c : Nat) : Bool := 48 ≤ c && c ≤ 57

/-- Value of a hexadecimal-digit code unit, if it is one. -/
def hexVal (c : Nat) : Option Nat :=
  if 48 ≤ c && c ≤ 57 then some (c - 48)
  else if 97 ≤ c && c ≤ 102 then some (c - 87)
  else if 65 ≤ c && c ≤ 70 then some (c - 55)
  else none

/-- Accumulate a run of decimal digits. -/
def parseDigits : List Nat → Nat → Nat × List Nat
  | [], acc => (acc, [])
  | c :: rest, acc =>
    if isDigitUnit c then parseDigits rest (acc * 10 + (c - 48))
    else (acc, c :: rest)

/-- Parse the body of a JSON string after the opening quote, undoing the
escapes, up to the closing quote. -/
def parseStringBody : List Nat → Option (List Nat × List Nat)
  | [] => none
  | c :: rest =>
    if c = 34 then some ([], rest)
    else if c = 92 then
      match rest with
      | [] => none
      | e :: rest1 =>
        if e = 34 then (parseStringBody rest1).map (fun p => (34 :: p.1, p.2))
        else if e = 92 then (parseStringBody rest1).map (fun p => (92 :: p.1, p.2))
        else if e = 47 then (parseStringBody rest1).map (fun p => (47 :: p.1, p.2))
        else if e = 98 then (parseStringBody rest1).map (fun p => (8 :: p.1, p.2))
        else if e = 116 then (parseStringBody rest1).map (fun p => (9 :: p.1, p.2))
        else if e = 110 then (parseStringBody rest1).map (fun p => (10 :: p.1, p.2))
        else if e = 102 then (parseStringBody rest1).map (fun p => (12 :: p.1, p.2))
        else if e = 114 then (parseStringBody rest1).map (fun p => (13 :: p.1, p.2))
        else if e = 117 then
          match rest1 with
          | h1 :: h2 :: h3 :: h4 :: rest2 =>
            match hexVal h1, hexVal h2, hexVal h3, hexVal h4 with
            | some d1, some d2, some d3, some d4 =>
              (parseStringBody rest2).map
                (fun p => ((((d1 * 16 + d2) * 16 + d3) * 16 + d4) :: p.1, p.2))
            | _, _, _, _ => none
          | _ => none
        else none
    else if c < 32 then none
    else (parseStringBody rest).map (fun p => (c :: p.1, p.2))

/-- Does the input start with the given code unit? -/
def headIs (n : Nat) : List Nat → Bool
  | [] => false
  | c :: _ => c = n

/-- Require a literal run of code units as a prefix of the input. -/
def expectUnits : List Nat → List Nat → Option (List Nat)
  | [], s => some s
  | _ :: _, [] => none
  | p :: ps, c :: rest => if c = p then expectUnits ps rest else none

mutual

/-- `JSON.parse` value parser (integer numbers only): returns the value and
the unconsumed input.  The fuel, decremented on every recursive call, bounds
the size of the value. -/
def parseValue : Nat → List Nat → Option (Json × List Nat)
  | 0, _ => none
  | fuel + 1, s =>
    match skipWs s with
    | [] => none
    | c :: rest =>
      if c = 110 then (expectUnits [117, 108, 108] rest).map (fun r => (.null, r))
      else if c = 116 then (expectUnits [114, 117, 101] rest).map (fun r => (.bool true, r))
      else if c = 102 then (expectUnits [97, 108, 115, 101] rest).map (fun r => (.bool false, r))
      else if c = 34 then (parseStringBody rest).map (fun p => (.str p.1, p.2))
      else if c = 91 then
        let r := skipWs rest
        if headIs 93 r then some (.arr .nil, r.tail)
        else (parseElems fuel r).map (fun p => (.arr p.1, p.2))
      else if c = 123 then
        let r := skipWs rest
        if headIs 125 r then some (.obj .nil, r.tail)
        else (parseMembers fuel r).map (fun p => (.obj p.1, p.2))
      else if c = 45 then
        match rest with
        | c2 :: rest2 =>
          if isDigitUnit c2 then
            let p := parseDigits rest2 (c2 - 48)
            some (.num (-(p.1 : Int)), p.2)
          else none
        | [] => none
      else if isDigitUnit c then
        let p := parseDigits rest (c - 48)
        some (.num (p.1 : Int), p.2)
      else none

/-- Parse one or more comma-separated array elements followed by `]`. -/
def parseElems : Nat → List Nat → Option (JsonList × List Nat)
  | 0, _ => none
  | fuel + 1, s =>
    match parseValue fuel s with
    | none => none
    | some (v, rest) =>
      match skipWs rest with
      | 44 :: rest2 =>
        (parseElems fuel rest2).map (fun p => (.cons v p.1, p.2))
      | 93 :: rest2 => some (.cons v .nil, rest2)
      | _ => none

/-- Parse one or more comma-separated object members followed by `}`. -/
def parseMembers : Nat → List Nat → Option (JsonFields × List Nat)
  | 0, _ => none
  | fuel + 1, s =>
    match skipWs s with
    | 34 :: rest =>
      match parseStringBody rest with
      | none => none
      | some (name, rest2) =>
        match skipWs rest2 with
        | 58 :: rest3 =>
          match parseValue fuel rest3 with
          | none => none
          | some (v, rest4) =>
            match skipWs rest4 with
            | 44 :: rest5 =>
              (parseMembers fuel rest5).map (fun p => (.cons name v p.1, p.2))
            | 125 :: rest5 => some (.cons name v .nil, rest5)
            | _ => none
        | _ => none
    | _ => none

end

/-- `JSON.parse`: parse a complete JSON text (integer numbers only),
returning `none` where JavaScript would throw a `SyntaxError`. -/
def jsonParse (s : List Nat) : Option Json :=
  match parseValue (s.length + 1) s with
  | some (v, rest) => if skipWs rest = [] then some v else none
  | none => none

/-- The digit-accumulation step used by the number parser. -/
def digitStep (a c : Nat) : Nat := a * 10 + (c - 48)

/-- The input does not continue with a decimal digit (so that a number just
parsed is maximal). -/
def headNotDigit : List Nat → Prop
  | [] => True
  | c :: _ => isDigitUnit c = false

mutual

/-- Size measure of a JSON value, bounding the parser fuel it needs. -/
def Json.jsize : Json → Nat
  | .null => 1
  | .bool _ => 1
  | .num _ => 1
  | .str _ => 1
  | .arr elems => JsonList.jsizeList elems + 1
  | .obj fields => JsonFields.jsizeFields fields + 1

/-- Size measure of a JSON array body. -/
def JsonList.jsizeList : JsonList → Nat
  | .nil => 1
  | .cons hd tl => Json.jsize hd + JsonList.jsizeList tl

/-- Size measure of a JSON object body. -/
def JsonFields.jsizeFields : JsonFields → Nat
  | .nil => 1
  | .cons _ v tl => Json.jsize v + JsonFields.jsizeFields tl

end

/-! ## Byte-level primitives (`packages/cli/apps.js`) -/

/-- `str2ab` (apps.js:79): writes each UTF-16 code unit of the string into a
`Uint8Array`, which truncates the unit modulo 256. -/
def str2ab (s : List Nat) : List Nat := s.map (fun c => c % 256)

/-- WHATWG UTF-8 decoding with U+FFFD replacement, fuel-structured; the fuel
is decremented once per decoded unit and any excess of the input length is
sufficient. -/
def utf8DecodeAux : Nat → List Nat → List Nat
  | 0, _ => []
  | _ + 1, [] => []
  | fuel + 1, b :: rest =>
    if b < 128 then b :: utf8DecodeAux fuel rest
    else if 194 ≤ b ∧ b ≤ 223 then
      match rest with
      | b2 :: rest2 =>
        if 128 ≤ b2 ∧ b2 ≤ 191 then
          ((b - 192) * 64 + (b2 - 128)) :: utf8DecodeAux fuel rest2
        else 65533 :: utf8DecodeAux fuel (b2 :: rest2)
      | [] => [65533]
    else if 224 ≤ b ∧ b ≤ 239 then
      match rest with
      | b2 :: rest2 =>
        if (if b = 224 then 160 else 128) ≤ b2 ∧
            b2 ≤ (if b = 237 then 159 else 191) then
          match rest2 with
          | b3 :: rest3 =>
            if 128 ≤ b3 ∧ b3 ≤ 191 then
              ((b - 224) * 4096 + (b2 - 128) * 64 + (b3 - 128)) ::
                utf8DecodeAux fuel rest3
            else 65533 :: utf8DecodeAux fuel (b3 :: rest3)
          | [] => [65533]
        else 65533 :: utf8DecodeAux fuel (b2 :: rest2)
      | [] => [65533]
    else if 240 ≤ b ∧ b ≤ 244 then
      match rest with
      | b2 :: rest2 =>
        if (if b = 240 then 144 else 128) ≤ b2 ∧
            b2 ≤ (if b = 244 then 143 else 191) then
          match rest2 with
          | b3 :: rest3 =>
            if 128 ≤ b3 ∧ b3 ≤ 191 then
              match rest3 with
              | b4 :: rest4 =>
                if 128 ≤ b4 ∧ b4 ≤ 191 then
                  let cp := (b - 240) * 262144 + (b2 - 128) * 4096 +
                    (b3 - 128) * 64 + (b4 - 128)
                  (55296 + (cp - 65536) / 1024) ::
                    (56320 + (cp - 65536) % 1024) :: utf8DecodeAux fuel rest4
                else 65533 :: utf8DecodeAux fuel (b4 :: rest4)
              | [] => [65533]
            else 65533 :: utf8DecodeAux fuel (b3 :: rest3)
          | [] => [65533]
        else 65533 :: utf8DecodeAux fuel (b2 :: rest2)
      | [] => [65533]
    else 65533 :: utf8DecodeAux fuel rest

/-- WHATWG UTF-8 decoding with U+FFFD replacement, emitting UTF-16 code units
(surrogate pairs above U+FFFF), as performed by `TextDecoder`. -/
def utf8Decode (bytes : List Nat) : List Nat :=
  utf8DecodeAux (bytes.length + 1) bytes

/-- `ab2str` (apps.js:87): `TextDecoder` UTF-8 decoding of a byte buffer. -/
def ab2str (b : List Nat) : List Nat := utf8Decode b

/-- UTF-8 encoding of a UTF-16 code-unit sequence (fuel-structured), as
performed by `TextEncoder` (surrogate pairs are combined; lone surrogates
become the replacement character's bytes). -/
def utf8EncodeAux : Nat → List Nat → List Nat
  | 0, _ => []
  | _ + 1, [] => []
  | fuel + 1, c :: rest =>
    if c < 128 then c :: utf8EncodeAux fuel rest
    else if c < 2048 then
      (192 + c / 64) :: (128 + c % 64) :: utf8EncodeAux fuel rest
    else if 55296 ≤ c ∧ c ≤ 56319 then
      match rest with
      | c2 :: rest2 =>
        if 56320 ≤ c2 ∧ c2 ≤ 57343 then
          let cp := 65536 + (c - 55296) * 1024 + (c2 - 56320)
          (240 + cp / 262144) :: (128 + cp / 4096 % 64) :: (128 + cp / 64 % 64) ::
            (128 + cp % 64) :: utf8EncodeAux fuel rest2
        else 239 :: 191 :: 189 :: utf8EncodeAux fuel (c2 :: rest2)
      | [] => [239, 191, 189]
    else if 56320 ≤ c ∧ c ≤ 57343 then
      239 :: 191 :: 189 :: utf8EncodeAux fuel rest
    else
      (224 + c / 4096) :: (128 + c / 64 % 64) :: (128 + c % 64) ::
        utf8EncodeAux fuel rest

/-- UTF-8 encoding of a UTF-16 code-unit sequence. -/
def utf8Encode (units : List Nat) : List Nat :=
  utf8EncodeAux (units.length + 1) units

/-- The four little-endian bytes written by `setUint32(0, n, true)`. -/
def leBytes32 (n : Nat) : List Nat :=
  [n % 256, n / 256 % 256, n / 65536 % 256, n / 16777216 % 256]

/-- The unsigned 32-bit integer read by `getUint32(0, true)` from the first
four bytes. -/
def leDecode32 (bytes : List Nat) : Nat :=
  match bytes with
  | b0 :: b1 :: b2 :: b3 :: _ => b0 + b1 * 256 + b2 * 65536 + b3 * 16777216
  | _ => 0

/-- `ArrayBuffer.slice` semantics: negative indices count from the end, and
both endpoints clamp to the buffer. -/
def jsSlice (l : List Nat) (start stop : Int) : List Nat :=
  let len : Int := l.length
  let b := if start < 0 then max (len + start) 0 else min start len
  let e := if stop < 0 then max (len + stop) 0 else min stop len
  (l.drop b.toNat).take (e - b).toNat

/-! ## Path helpers (`node:path` as used by the CLI) -/

/-- `url.split("/").pop()`: the part of a string after its last `/`. -/
def lastSeg (s : List Nat) : List Nat :=
  s.foldl (fun acc c => if c = 47 then [] else acc ++ [c]) []

/-- The extension suffix of a name starting at its last dot; a dot at the
start of the name does not count (as in `path.extname`). -/
def extFrom : List Nat → List Nat
  | [] => []
  | c :: rest =>
    let r := extFrom rest
    if r ≠ [] then r else if c = 46 then 46 :: rest else []

/-- `path.extname`: the extension of the final path segment. -/
def pathExtname (p : List Nat) : List Nat :=
  match lastSeg p with
  | [] => []
  | _ :: rest => extFrom rest

/-- `path.basename`, modelled as the final path segment (trailing-slash
normalisation never arises in the repository's calls). -/
def pathBasename (p : List Nat) : List Nat := lastSeg p

/-- `path.join` of two segments (the repository never joins paths needing
`..`/`.` normalisation). -/
def pathJoin (a b : List Nat) : List Nat :=
  if a = [] then b else if b = [] then a else a ++ 47 :: b

/-- Lower-casing of ASCII letters, as in `String.prototype.toLowerCase` on
the extensions handled by `getMimeType`. -/
def toLowerUnits (s : List Nat) : List Nat :=
  s.map (fun c => if 65 ≤ c ∧ c ≤ 90 then c + 32 else c)

/-! ## The `.hyp` container codec (`packages/cli/apps.js`) -/

/-- A code unit kept by the recovery regex `[^\x20-\x7E]` replacement: the
printable ASCII range. -/
def printableAscii (c : Nat) : Bool := 32 ≤ c && c ≤ 126

/-- One attempted match of the recovery regex
`/"(message\d*|emoji\d*)":"[^"]*"/` at the current position, returning the
matched run and the remaining input. -/
def matchKnownField (s : List Nat) : Option (List Nat × List Nat) :=
  match s with
  | 34 :: rest =>
    let named : Option (List Nat × List Nat) :=
      match expectUnits (jstr "message") rest with
      | some r => some (jstr "message", r)
      | none =>
        match expectUnits (jstr "emoji") rest with
        | some r => some (jstr "emoji", r)
        | none => none
    match named with
    | none => none
    | some (name, r1) =>
      let digits := r1.takeWhile isDigitUnit
      let r2 := r1.drop digits.length
      match r2 with
      | 34 :: 58 :: 34 :: r3 =>
        let content := r3.takeWhile (fun c => c ≠ 34)
        match r3.drop content.length with
        | 34 :: r4 =>
          some (34 :: name ++ digits ++ 34 :: 58 :: 34 :: content ++ [34], r4)
        | _ => none
      | _ => none
  | _ => none

/-- The first recovery pass of `parseHypHeader` (apps.js:113): each match of
the known-field regex has its non-printable-ASCII characters removed; the
scan advances one unit at a time between matches.  The fuel is the input
length. -/
def fixKnownFields : Nat → List Nat → List Nat
  | 0, s => s
  | fuel + 1, s =>
    match s with
    | [] => []
    | c :: rest =>
      match matchKnownField (c :: rest) with
      | some (m, r) => m.filter printableAscii ++ fixKnownFields fuel r
      | none => c :: fixKnownFields fuel rest

/-- `parseHypHeader` (apps.js:105): recovery parsing of the raw header
string; first the known-field cleanup, then as a last resort stripping every
non-printable-ASCII character.  `none` models the final uncaught
`SyntaxError`.  (The source recomputes the raw string from the buffer; the
model receives it directly.) -/
def parseHypHeader (rawStr : List Nat) : Option Json :=
  let fixedHeaderStr := fixKnownFields rawStr.length rawStr
  match jsonParse fixedHeaderStr with
  | some h => some h
  | none =>
    let ultraSafeStr := rawStr.filter printableAscii
    jsonParse ultraSafeStr

/-- An asset record extracted by `importApp` (apps.js:162): descriptor fields
plus the sliced payload.  `type` and `mime` are taken from the descriptor as
parsed (possibly `undefined`). -/
structure AssetOut where
  type : Option Json
  url : List Nat
  fileName : List Nat
  data : List Nat
  size : Int
  mime : Option Json

/-- The asset-extraction loop of `importApp` (apps.js:155-172): sequential
slicing by declared sizes.  `ArrayBuffer.slice` clamps, so oversized or
negative declarations never fail.  A descriptor whose `url` is not a string
or whose `size` is not a number is rejected (where JavaScript would throw a
`TypeError`). -/
def extractAssets (buffer : List Nat) : Int → List Json → Except (List Nat) (List AssetOut)
  | _, [] => .ok []
  | position, assetInfo :: rest =>
    match assetInfo.get (jstr "url"), assetInfo.get (jstr "size") with
    | some (.str url), some (.num size) =>
      let data := jsSlice buffer position (position + size)
      let fileName := lastSeg url
      (extractAssets buffer (position + size) rest).map
        (fun outs =>
          { type := assetInfo.get (jstr "type"), url := url, fileName := fileName,
            data := data, size := size, mime := assetInfo.get (jstr "mime") } :: outs)
    | _, _ => .error (jstr "TypeError")

/-- `importApp` (apps.js:133): reads the 4-byte little-endian header length,
decodes and parses the header (with the recovery fallback), then slices out
each asset's byte range sequentially by declared size. -/
def importApp (buffer : List Nat) : Except (List Nat) (Option Json × List AssetOut) :=
  if buffer.length < 4 then .error (jstr "RangeError")
  else
    let headerSize := leDecode32 (buffer.take 4)
    let headerBytes := (buffer.drop 4).take headerSize
    let rawStr := ab2str headerBytes
    let header? :=
      match jsonParse rawStr with
      | some h => some h
      | none => parseHypHeader rawStr
    match header? with
    | none => .error (jstr "SyntaxError")
    | some header =>
      match header.get (jstr "assets") with
      | some (.arr assetInfos) =>
        (extractAssets buffer ((4 : Int) + headerSize) assetInfos.toList).map
          (fun assets => (header.get (jstr "blueprint"), assets))
      | _ => .error (jstr "TypeError")

/-- An asset collected by `packDirectory` (apps.js:359-376): its descriptor
strings and its raw bytes.  The declared size is the file's byte length
(`fs.statSync(...).size`). -/
structure AssetIn where
  type : List Nat
  url : List Nat
  data : List Nat
  mime : List Nat

/-- The header descriptor of one asset (apps.js:381-386), with keys in
insertion order `type, url, size, mime`. -/
def assetDescriptor (a : AssetIn) : Json :=
  .obj (.cons (jstr "type") (.str a.type)
    (.cons (jstr "url") (.str a.url)
      (.cons (jstr "size") (.num (a.data.length : Int))
        (.cons (jstr "mime") (.str a.mime) .nil))))

/-- The container header object (apps.js:379-387):
`{blueprint, assets: [...]}`. -/
def hypHeader (blueprint : Json) (assets : List AssetIn) : Json :=
  .obj (.cons (jstr "blueprint") blueprint
    (.cons (jstr "assets") (.arr (JsonList.ofList (assets.map assetDescriptor))) .nil))

/-- The byte-assembly core of `packDirectory` (apps.js:378-416): 4-byte
little-endian header length, the header string written through `str2ab`, then
each asset's raw bytes in descriptor order. -/
def encodeHyp (blueprint : Json) (assets : List AssetIn) : List Nat :=
  let headerBytes := str2ab (Json.stringify (hypHeader blueprint assets))
  leBytes32 headerBytes.length ++ headerBytes ++ (assets.map AssetIn.data).flatten

/-- `getMimeType` (apps.js:181): extension-keyed MIME lookup with an
`application/octet-stream` default. -/
def getMimeType (filePath : List Nat) : List Nat :=
  let ext := toLowerUnits (pathExtname filePath)
  if ext = jstr ".vrm" then jstr "model/vrm"
  else if ext = jstr ".gltf" then jstr "model/gltf+json"
  else if ext = jstr ".glb" then jstr "model/gltf-binary"
  else if ext = jstr ".js" then jstr "application/javascript"
  else if ext = jstr ".png" then jstr "image/png"
  else if ext = jstr ".jpg" then jstr "image/jpeg"
  else if ext = jstr ".jpeg" then jstr "image/jpeg"
  else if ext = jstr ".gif" then jstr "image/gif"
  else if ext = jstr ".webp" then jstr "image/webp"
  else if ext = jstr ".mp3" then jstr "audio/mpeg"
  else if ext = jstr ".wav" then jstr "audio/wav"
  else if ext = jstr ".mp4" then jstr "video/mp4"
  else if ext = jstr ".webm" then jstr "video/webm"
  else jstr "application/octet-stream"

/-- Look a file up in a directory modelled as an association list from names
to byte contents. -/
def dirLookup (files : List (List Nat × List Nat)) (name : List Nat) : Option (List Nat) :=
  (files.find? (fun p => p.1 = name)).map Prod.snd

/-- The asset-discovery phase of `packDirectory` (apps.js:279-353): fields
`model`, `script`, `image.url` and every `props` entry with a `url` name a
file (by final path segment) looked up in the app directory; missing files
produce a warning and are omitted.  Only string-valued references are
modelled (a non-string truthy field would throw in JavaScript). -/
def collectAssets (blueprintJson : Json) (files : List (List Nat × List Nat)) : List AssetIn :=
  let modelAssets :=
    match blueprintJson.get (jstr "model") with
    | some (.str m) =>
      if m ≠ [] then
        match dirLookup files (lastSeg m) with
        | some data =>
          [{ type := if (jstr ".vrm").isSuffixOf m then jstr "avatar" else jstr "model",
             url := m, data := data, mime := getMimeType (lastSeg m) : AssetIn }]
        | none => []
      else []
    | _ => []
  let scriptAssets :=
    match blueprintJson.get (jstr "script") with
    | some (.str sc) =>
      if sc ≠ [] then
        match dirLookup files (lastSeg sc) with
        | some data =>
          [{ type := jstr "script", url := sc, data := data,
             mime := getMimeType (lastSeg sc) : AssetIn }]
        | none => []
      else []
    | _ => []
  let imageAssets :=
    match blueprintJson.get (jstr "image") with
    | some image =>
      if image.truthy then
        match image.get (jstr "url") with
        | some (.str u) =>
          if u ≠ [] then
            match dirLookup files (lastSeg u) with
            | some data =>
              [{ type := jstr "texture", url := u, data := data,
                 mime := getMimeType (lastSeg u) : AssetIn }]
            | none => []
          else []
        | _ => []
      else []
    | none => []
  let propAssets :=
    match blueprintJson.get (jstr "props") with
    | some (.obj ps) => collectPropAssets ps files
    | _ => []
  modelAssets ++ scriptAssets ++ imageAssets ++ propAssets
where
  collectPropAssets : JsonFields → List (List Nat × List Nat) → List AssetIn
    | .nil, _ => []
    | .cons _ value tl, files =>
      (match value.get (jstr "url") with
       | some (.str u) =>
         if u ≠ [] && value.truthy then
           match dirLookup files (lastSeg u) with
           | some data =>
             [{ type := (match value.get (jstr "type") with
                         | some (.str t) => t
                         | _ => []),
                url := u, data := data, mime := getMimeType (lastSeg u) : AssetIn }]
           | none => []
         else []
       | _ => []) ++ collectPropAssets tl files

/-! ## Asset resolution and rewriting (`packages/cli/apps.js`) -/

/-- The search of step 2 of `findAsset` (apps.js:557-568): the bare file name
joined to each existing search directory, first hit wins. -/
def searchByName (fsEx : List Nat → Bool) (fileName : List Nat) : List (List Nat) → Option (List Nat × List Nat)
  | [] => none
  | dir :: ds =>
    if fsEx dir then
      if fsEx (pathJoin dir fileName) then some (pathJoin dir fileName, fileName)
      else searchByName fsEx fileName ds
    else searchByName fsEx fileName ds

/-- The search of step 3 of `findAsset` (apps.js:570-581): the cleaned
relative path joined to each existing search directory. -/
def searchByPath (fsEx : List Nat → Bool) (cleanPath : List Nat) : List (List Nat) → Option (List Nat × List Nat)
  | [] => none
  | dir :: ds =>
    if fsEx dir then
      if fsEx (pathJoin dir cleanPath) then
        some (pathJoin dir cleanPath, pathBasename (pathJoin dir cleanPath))
      else searchByPath fsEx cleanPath ds
    else searchByPath fsEx cleanPath ds

/-- `findAsset` (apps.js:542): strips an `asset://` scheme, then tries the
literal path, then a basename match in each search directory in order, then a
sub-path match in each search directory in order.  Returns
`(originalPath, fileName)` of the first hit, `none` otherwise.  `fsEx` is
`fs.existsSync`. -/
def findAsset (fsEx : List Nat → Bool) (assetPath : List Nat) (searchDirs : List (List Nat)) : Option (List Nat × List Nat) :=
  let cleanPath :=
    if (jstr "asset://").isPrefixOf assetPath then assetPath.drop 8 else assetPath
  if fsEx cleanPath then some (cleanPath, pathBasename cleanPath)
  else
    match searchByName fsEx (pathBasename cleanPath) searchDirs with
    | some hit => some hit
    | none => searchByPath fsEx cleanPath searchDirs

/-- The candidate paths in the resolution order stated by the specification:
the literal (cleaned) path, then the basename in each configured search
directory in list order, then the relative sub-path in each search directory
in the same order.  Modelled from the spec for comparison with `findAsset`. -/
def findAssetCandidates (assetPath : List Nat) (searchDirs : List (List Nat)) : List (List Nat) :=
  let cleanPath :=
    if (jstr "asset://").isPrefixOf assetPath then assetPath.drop 8 else assetPath
  cleanPath ::
    searchDirs.map (fun d => pathJoin d (pathBasename cleanPath)) ++
    searchDirs.map (fun d => pathJoin d cleanPath)

/-- A record of one asset copied by `processAssets` (apps.js:609-672). -/
structure CopiedAsset where
  source : List Nat
  dest : List Nat
  kind : List Nat
  propKey : Option (List Nat)
  hashedName : List Nat

/-- A non-fatal missing-asset warning emitted by `processAssets`
(`console.warn`, apps.js:618-678). -/
inductive AssetWarning where
  | missingModel (ref : List Nat) : AssetWarning
  | missingImage (ref : List Nat) : AssetWarning
  | missingProp (ref : List Nat) (key : List Nat) : AssetWarning

/-- `hashFile` (apps.js:528) over the filesystem model: the hash of the
file's content. -/
def hashFile (contentOf : List Nat → Option (List Nat)) (hashFn : List Nat → List Nat) (filePath : List Nat) : List Nat :=
  hashFn ((contentOf filePath).getD [])

/-- The `props` loop of `processAssets` (apps.js:654-682), processing entries
in key order; each resolved reference is rewritten to its hashed name, each
unresolved one warns and is left unchanged. -/
def processPropsFields (fsEx : List Nat → Bool) (contentOf : List Nat → Option (List Nat)) (hashFn : List Nat → List Nat) (appDir : List Nat) (searchDirs : List (List Nat)) : JsonFields → JsonFields × List CopiedAsset × List AssetWarning
  | .nil => (.nil, [], [])
  | .cons key prop tl =>
    let (tl', cs, ws) := processPropsFields fsEx contentOf hashFn appDir searchDirs tl
    match prop.get (jstr "url") with
    | some (.str u) =>
      if prop.truthy && u ≠ [] then
        match findAsset fsEx u searchDirs with
        | some (originalPath, fileName) =>
          let hash := hashFile contentOf hashFn originalPath
          let hashedName := hash ++ pathExtname fileName
          (.cons key (prop.set (jstr "url") (.str (jstr "asset://" ++ hashedName))) tl',
            { source := originalPath, dest := pathJoin appDir hashedName,
              kind := jstr "prop", propKey := some key, hashedName := hashedName } :: cs,
            ws)
        | none => (.cons key prop tl', cs, AssetWarning.missingProp u key :: ws)
      else (.cons key prop tl', cs, ws)
    | _ => (.cons key prop tl', cs, ws)

/-- The effect of the `props` loop of `processAssets` on one entry's value:
a resolved `url` is rewritten to its hashed name, anything else is left
unchanged. -/
def processPropStep (fsEx : List Nat → Bool) (contentOf : List Nat → Option (List Nat)) (hashFn : List Nat → List Nat) (searchDirs : List (List Nat)) (prop : Json) : Json :=
  match prop.get (jstr "url") with
  | some (.str u) =>
    if prop.truthy && u ≠ [] then
      match findAsset fsEx u searchDirs with
      | some (originalPath, fileName) =>
        prop.set (jstr "url")
          (.str (jstr "asset://" ++
            (hashFile contentOf hashFn originalPath ++ pathExtname fileName)))
      | none => prop
    else prop
  | _ => prop

/-- The `model` phase of `processAssets` (apps.js:600-624). -/
def processModelStep (fsEx : List Nat → Bool) (contentOf : List Nat → Option (List Nat)) (hashFn : List Nat → List Nat) (appDir : List Nat) (searchDirs : List (List Nat)) (blueprint : Json) : Json × List CopiedAsset × List AssetWarning :=
  match blueprint.get (jstr "model") with
  | some (.str m) =>
    if m ≠ [] then
      match findAsset fsEx m searchDirs with
      | some (originalPath, fileName) =>
        let hash := hashFile contentOf hashFn originalPath
        let hashedName := hash ++ pathExtname fileName
        (blueprint.set (jstr "model") (.str (jstr "asset://" ++ hashedName)),
          [{ source := originalPath, dest := pathJoin appDir hashedName,
             kind := jstr "model", propKey := none, hashedName := hashedName }],
          [])
      | none => (blueprint, [], [AssetWarning.missingModel m])
    else (blueprint, [], [])
  | _ => (blueprint, [], [])

/-- The `image` phase of `processAssets` (apps.js:627-651). -/
def processImageStep (fsEx : List Nat → Bool) (contentOf : List Nat → Option (List Nat)) (hashFn : List Nat → List Nat) (appDir : List Nat) (searchDirs : List (List Nat)) (bp1 : Json) : Json × List CopiedAsset × List AssetWarning :=
  match bp1.get (jstr "image") with
  | some image =>
    if image.truthy then
      match image.get (jstr "url") with
      | some (.str u) =>
        if u ≠ [] then
          match findAsset fsEx u searchDirs with
          | some (originalPath, fileName) =>
            let hash := hashFile contentOf hashFn originalPath
            let hashedName := hash ++ pathExtname fileName
            (bp1.set (jstr "image")
                (image.set (jstr "url") (.str (jstr "asset://" ++ hashedName))),
              [{ source := originalPath, dest := pathJoin appDir hashedName,
                 kind := jstr "image", propKey := none, hashedName := hashedName }],
              [])
          | none => (bp1, [], [AssetWarning.missingImage u])
        else (bp1, [], [])
      | _ => (bp1, [], [])
    else (bp1, [], [])
  | none => (bp1, [], [])

/-- The `props` phase of `processAssets` (apps.js:654-682). -/
def processPropsStep (fsEx : List Nat → Bool) (contentOf : List Nat → Option (List Nat)) (hashFn : List Nat → List Nat) (appDir : List Nat) (searchDirs : List (List Nat)) (bp2 : Json) : Json × List CopiedAsset × List AssetWarning :=
  match bp2.get (jstr "props") with
  | some (.obj ps) =>
    let r := processPropsFields fsEx contentOf hashFn appDir searchDirs ps
    (bp2.set (jstr "props") (.obj r.1), r.2.1, r.2.2)
  | _ => (bp2, [], [])

/-- `processAssets` (apps.js:594): rewrites `model`, `image.url` and every
`props` entry bearing a `url` to content-hashed `asset://` names, copying the
files; unresolved references warn and are left unchanged.  Only string-valued
references are modelled (a non-string truthy field would throw in
JavaScript).  The function is total: no failure aborts it. -/
def processAssets (fsEx : List Nat → Bool) (contentOf : List Nat → Option (List Nat)) (hashFn : List Nat → List Nat) (appDir : List Nat) (searchDirs : List (List Nat)) (blueprint : Json) : Json × List CopiedAsset × List AssetWarning :=
  let am := processModelStep fsEx contentOf hashFn appDir searchDirs blueprint
  let ai := processImageStep fsEx contentOf hashFn appDir searchDirs am.1
  let ap := processPropsStep fsEx contentOf hashFn appDir searchDirs ai.1
  (ap.1, am.2.1 ++ ai.2.1 ++ ap.2.1, am.2.2 ++ ai.2.2 ++ ap.2.2)

/-! ## World database exchange (`packages/cli/worlds.js`) -/

/-- The asset info returned by `storeAsset` (worlds.js:72-78). -/
structure AssetInfo where
  originalPath : List Nat
  originalName : List Nat
  hash : List Nat
  filename : List Nat
  extension : List Nat

/-- `storeAsset` (worlds.js:33): reads the source file, hashes its content,
and returns the content-addressed naming info; `none` when the file is
missing (a logged, non-fatal condition).  The copy into the store is a no-op
when the name already exists and does not affect the returned info. -/
def storeAsset (contentOf : List Nat → Option (List Nat)) (hashFn : List Nat → List Nat) (sourcePath : List Nat) : Option AssetInfo :=
  match contentOf sourcePath with
  | none => none
  | some fileContent =>
    let hash := hashFn fileContent
    let ext := pathExtname sourcePath
    some { originalPath := sourcePath, originalName := pathBasename sourcePath,
           hash := hash, filename := hash ++ ext, extension := ext }

/-- One manifest entry accumulated by `extractBlueprints`
(worlds.js:406-413): the stored-asset info plus its provenance. -/
structure ManifestEntry where
  originalPath : List Nat
  originalName : List Nat
  hash : List Nat
  filename : List Nat
  extension : List Nat
  usedInId : List Nat
  usedInField : List Nat

/-- Attach provenance to stored-asset info. -/
def entryOf (info : AssetInfo) (id fieldPath : List Nat) : ManifestEntry :=
  { originalPath := info.originalPath, originalName := info.originalName,
    hash := info.hash, filename := info.filename, extension := info.extension,
    usedInId := id, usedInField := fieldPath }

/-- The `props` loop of the forward rewrite (worlds.js:465-487), in key
order. -/
def forwardProps (contentOf : List Nat → Option (List Nat)) (hashFn : List Nat → List Nat) (sourceAssetsDir : List Nat) (id : List Nat) : JsonFields → JsonFields × List ManifestEntry
  | .nil => (.nil, [])
  | .cons key prop tl =>
    let (tl', es) := forwardProps contentOf hashFn sourceAssetsDir id tl
    match prop.get (jstr "url") with
    | some (.str u) =>
      if (jstr "asset://").isPrefixOf u then
        let assetFile := u.drop 8
        let sourcePath := pathJoin sourceAssetsDir assetFile
        match storeAsset contentOf hashFn sourcePath with
        | some info =>
          (.cons key (prop.set (jstr "url") (.str (jstr "asset://" ++ info.filename))) tl',
            entryOf info id (jstr "props." ++ key ++ jstr ".url") :: es)
        | none => (.cons key prop tl', es)
      else (.cons key prop tl', es)
    | _ => (.cons key prop tl', es)

/-- The forward (symbolic name → content hash) rewrite performed per
blueprint row by `extractBlueprints` (worlds.js:397-487): fields `model`,
`script`, `image.url` and every `props` entry whose `url` bears the
`asset://` scheme are stored through the content-addressable store and
rewritten to the hashed filename; unresolved references are left unchanged.
Only string-valued fields are modelled (a non-string field would throw in
JavaScript). -/
def rewriteForward (contentOf : List Nat → Option (List Nat)) (hashFn : List Nat → List Nat) (sourceAssetsDir : List Nat) (id : List Nat) (fullBlueprint : Json) : Json × List ManifestEntry :=
  let afterModel :=
    match fullBlueprint.get (jstr "model") with
    | some (.str m) =>
      if (jstr "asset://").isPrefixOf m then
        match storeAsset contentOf hashFn (pathJoin sourceAssetsDir (m.drop 8)) with
        | some info =>
          (fullBlueprint.set (jstr "model") (.str (jstr "asset://" ++ info.filename)),
            [entryOf info id (jstr "model")])
        | none => (fullBlueprint, [])
      else (fullBlueprint, [])
    | _ => (fullBlueprint, [])
  let bp1 := afterModel.1
  let afterScript :=
    match bp1.get (jstr "script") with
    | some (.str sc) =>
      if (jstr "asset://").isPrefixOf sc then
        match storeAsset contentOf hashFn (pathJoin sourceAssetsDir (sc.drop 8)) with
        | some info =>
          (bp1.set (jstr "script") (.str (jstr "asset://" ++ info.filename)),
            [entryOf info id (jstr "script")])
        | none => (bp1, [])
      else (bp1, [])
    | _ => (bp1, [])
  let bp2 := afterScript.1
  let afterImage :=
    match bp2.get (jstr "image") with
    | some image =>
      match image.get (jstr "url") with
      | some (.str u) =>
        if (jstr "asset://").isPrefixOf u then
          match storeAsset contentOf hashFn (pathJoin sourceAssetsDir (u.drop 8)) with
          | some info =>
            (bp2.set (jstr "image")
                (image.set (jstr "url") (.str (jstr "asset://" ++ info.filename))),
              [entryOf info id (jstr "image.url")])
          | none => (bp2, [])
        else (bp2, [])
      | _ => (bp2, [])
    | none => (bp2, [])
  let bp3 := afterImage.1
  let afterProps :=
    match bp3.get (jstr "props") with
    | some (.obj ps) =>
      let (ps', es) := forwardProps contentOf hashFn sourceAssetsDir id ps
      (bp3.set (jstr "props") (.obj ps'), es)
    | _ => (bp3, [])
  (afterProps.1, afterModel.2 ++ afterScript.2 ++ afterImage.2 ++ afterProps.2)

/-- The hash-to-original-name map built by `importBlueprints`
(worlds.js:842-845): later entries overwrite earlier ones, so lookup returns
the last entry with the given filename. -/
def assetMapLookup (assetPairs : List (List Nat × List Nat)) (hashedFile : List Nat) : Option (List Nat) :=
  (assetPairs.reverse.find? (fun a => a.1 = hashedFile)).map Prod.snd

/-- The filename/original-name pairs of a manifest. -/
def manifestPairs (entries : List ManifestEntry) : List (List Nat × List Nat) :=
  entries.map (fun e => (e.filename, e.originalName))

/-- The `props` loop of the reverse rewrite (worlds.js:882-890). -/
def reverseProps (assetPairs : List (List Nat × List Nat)) : JsonFields → JsonFields
  | .nil => .nil
  | .cons key prop tl =>
    let tl' := reverseProps assetPairs tl
    match prop.get (jstr "url") with
    | some (.str u) =>
      if (jstr "asset://").isPrefixOf u then
        match assetMapLookup assetPairs (u.drop 8) with
        | some orig =>
          .cons key (prop.set (jstr "url") (.str (jstr "asset://" ++ orig))) tl'
        | none => .cons key prop tl'
      else .cons key prop tl'
    | _ => .cons key prop tl'

/-- The reverse (content hash → original name) rewrite performed per
blueprint file by `importBlueprints` (worlds.js:859-890), substituting via
the manifest's hash→name map; unmapped references are left unchanged. -/
def rewriteReverse (assetPairs : List (List Nat × List Nat)) (blueprintCopy : Json) : Json :=
  let afterModel :=
    match blueprintCopy.get (jstr "model") with
    | some (.str m) =>
      if (jstr "asset://").isPrefixOf m then
        match assetMapLookup assetPairs (m.drop 8) with
        | some orig => blueprintCopy.set (jstr "model") (.str (jstr "asset://" ++ orig))
        | none => blueprintCopy
      else blueprintCopy
    | _ => blueprintCopy
  let afterScript :=
    match afterModel.get (jstr "script") with
    | some (.str sc) =>
      if (jstr "asset://").isPrefixOf sc then
        match assetMapLookup assetPairs (sc.drop 8) with
        | some orig => afterModel.set (jstr "script") (.str (jstr "asset://" ++ orig))
        | none => afterModel
      else afterModel
    | _ => afterModel
  let afterImage :=
    match afterScript.get (jstr "image") with
    | some image =>
      match image.get (jstr "url") with
      | some (.str u) =>
        if (jstr "asset://").isPrefixOf u then
          match assetMapLookup assetPairs (u.drop 8) with
          | some orig =>
            afterScript.set (jstr "image")
              (image.set (jstr "url") (.str (jstr "asset://" ++ orig)))
          | none => afterScript
        else afterScript
      | _ => afterScript
    | none => afterScript
  match afterImage.get (jstr "props") with
  | some (.obj ps) => afterImage.set (jstr "props") (.obj (reverseProps assetPairs ps))
  | _ => afterImage

/-- Append object field lists (used to model object spread). -/
def JsonFields.append : JsonFields → JsonFields → JsonFields
  | .nil, gs => gs
  | .cons n v tl, gs => .cons n v (JsonFields.append tl gs)

/-- JavaScript `delete o[key]`: removes the key's fields from an object; the
identity on non-objects. -/
def Json.del : Json → List Nat → Json
  | .obj fs, key => .obj (go fs key)
  | j, _ => j
where
  go : JsonFields → List Nat → JsonFields
    | .nil, _ => .nil
    | .cons n v tl, key => if n = key then go tl key else .cons n v (go tl key)

/-- One database row of the `blueprints` or `entities` table: an id, a JSON
text payload, and timestamps. -/
structure DbRow where
  id : List Nat
  data : List Nat
  createdAt : List Nat
  updatedAt : List Nat

/-- `{id, createdAt, updatedAt, ...data}` (worlds.js:390-395): the spread
appends the payload's fields after the metadata fields; with last-wins field
lookup this matches JavaScript spread semantics.  Spreading a non-object
contributes no fields. -/
def mergeMeta (row : DbRow) (data : Json) : Json :=
  let metaFields : JsonFields :=
    .cons (jstr "id") (.str row.id)
      (.cons (jstr "createdAt") (.str row.createdAt)
        (.cons (jstr "updatedAt") (.str row.updatedAt) .nil))
  match data with
  | .obj fs => .obj (metaFields.append fs)
  | _ => .obj metaFields

/-- The row loop of `extractBlueprints` (worlds.js:375-499): rows whose
payload fails to parse are logged and skipped; the rest are merged with their
metadata, forward-rewritten, and written out as `(id, blueprint)`; the
per-row manifest entries are accumulated in row order. -/
def extractBlueprintsRows (contentOf : List Nat → Option (List Nat)) (hashFn : List Nat → List Nat) (sourceAssetsDir : List Nat) : List DbRow → List (List Nat × Json) × List ManifestEntry
  | [] => ([], [])
  | row :: rest =>
    match jsonParse row.data with
    | none => extractBlueprintsRows contentOf hashFn sourceAssetsDir rest
    | some data =>
      let fullBlueprint := mergeMeta row data
      let (bp, entries) :=
        rewriteForward contentOf hashFn sourceAssetsDir row.id fullBlueprint
      let (files, assets) := extractBlueprintsRows contentOf hashFn sourceAssetsDir rest
      ((row.id, bp) :: files, entries ++ assets)

/-- The row loop of `extractEntities` (worlds.js:527-559): rows whose payload
fails to parse are logged and skipped; the rest are merged with their
metadata and written out. -/
def extractEntitiesRows : List DbRow → List (List Nat × Json)
  | [] => []
  | row :: rest =>
    match jsonParse row.data with
    | none => extractEntitiesRows rest
    | some data => (row.id, mergeMeta row data) :: extractEntitiesRows rest

/-- A database or filesystem side effect performed by the pack pipeline. -/
inductive DbEffect where
  | unlinkDb : DbEffect
  | schema : DbEffect
  | configInsert (key : Option Json) (value : Option Json) : DbEffect
  | userInsert (id : Option Json) : DbEffect
  | assetCopy (filename originalName : List Nat) : DbEffect
  | blueprintInsert (id : Option Json) (data : List Nat) : DbEffect
  | entityInsert (id : Option Json) (data : List Nat) : DbEffect

/-- The stored `value` of a config row (worlds.js:772-775): object-typed
values (including arrays and `null`, for which `typeof` is "object") are
re-serialized, others stored as read. -/
def configStoredValue : Option Json → Option Json
  | some (.obj fs) => some (.str (Json.stringify (.obj fs)))
  | some (.arr xs) => some (.str (Json.stringify (.arr xs)))
  | some .null => some (.str (Json.stringify Json.null))
  | v => v

/-- The file loop of `importConfig` (worlds.js:764-786).  `JSON.parse` is not
guarded here: a malformed file throws, aborting the remaining files (the
`Bool` reports the abort). -/
def importConfigFiles : List (List Nat) → List DbEffect × Bool
  | [] => ([], false)
  | f :: rest =>
    match jsonParse f with
    | none => ([], true)
    | some cfg =>
      let (es, ab) := importConfigFiles rest
      (.configInsert (cfg.get (jstr "key")) (configStoredValue (cfg.get (jstr "value"))) :: es, ab)

/-- The file loop of `importUsers` (worlds.js:804-823); `JSON.parse`
unguarded as above. -/
def importUsersFiles : List (List Nat) → List DbEffect × Bool
  | [] => ([], false)
  | f :: rest =>
    match jsonParse f with
    | none => ([], true)
    | some user =>
      let (es, ab) := importUsersFiles rest
      (.userInsert (user.get (jstr "id")) :: es, ab)

/-- The asset-copy loop of `packDirectory` (worlds.js:661-677): copies each
manifest asset present in the global store, deduplicated by original name. -/
def copyAssetsPhase (globalEx : List Nat → Bool) (globalAssetsDir : List Nat) (seen : List (List Nat)) : List (List Nat × List Nat) → List DbEffect
  | [] => []
  | a :: rest =>
    if globalEx (pathJoin globalAssetsDir a.1) && !(seen.contains a.2) then
      .assetCopy a.1 a.2 :: copyAssetsPhase globalEx globalAssetsDir (a.2 :: seen) rest
    else copyAssetsPhase globalEx globalAssetsDir seen rest

/-- The file loop of `importBlueprints` (worlds.js:847-907): each file is
parsed (unguarded: a malformed file throws and aborts the remainder), its
timestamps removed, its asset references reverse-rewritten, and the result
inserted. -/
def importBlueprintsFiles (assetPairs : List (List Nat × List Nat)) : List (List Nat) → List DbEffect × Bool
  | [] => ([], false)
  | f :: rest =>
    match jsonParse f with
    | none => ([], true)
    | some fullBlueprint =>
      let blueprintCopy :=
        (fullBlueprint.del (jstr "createdAt")).del (jstr "updatedAt")
      let rewritten := rewriteReverse assetPairs blueprintCopy
      let (es, ab) := importBlueprintsFiles assetPairs rest
      (.blueprintInsert (fullBlueprint.get (jstr "id")) (Json.stringify rewritten) :: es, ab)

/-- The file loop of `importEntities` (worlds.js:926-953); unguarded parse as
above, timestamps removed, no rewriting. -/
def importEntitiesFiles : List (List Nat) → List DbEffect × Bool
  | [] => ([], false)
  | f :: rest =>
    match jsonParse f with
    | none => ([], true)
    | some fullEntity =>
      let entityCopy := (fullEntity.del (jstr "createdAt")).del (jstr "updatedAt")
      let (es, ab) := importEntitiesFiles rest
      (.entityInsert (fullEntity.get (jstr "id")) (Json.stringify entityCopy) :: es, ab)

/-- A string-valued JSON field, `""` as a degenerate default. -/
def Json.asStr : Json → Option (List Nat)
  | .str s => some s
  | _ => none

/-- The manifest read of `packDirectory` (worlds.js:623-631): a missing or
unparseable `world-metadata.json` yields no assets (the parse error is caught
and logged); otherwise the `assets` array's filename/original-name pairs. -/
def metaPairs : Option (List Nat) → List (List Nat × List Nat)
  | none => []
  | some txt =>
    match jsonParse txt with
    | none => []
    | some m =>
      match m.get (jstr "assets") with
      | some (.arr xs) =>
        xs.toList.map (fun a =>
          (((a.get (jstr "filename")).bind Json.asStr).getD [],
           ((a.get (jstr "originalName")).bind Json.asStr).getD []))
      | _ => []

/-- The invocation-level inputs of `packDirectory` (worlds.js:565): the
eagerly checked filesystem facts and the unpacked directory's contents
(`none` models an absent sub-directory). -/
structure PackInput where
  inputDirExists : Bool
  inputIsDir : Bool
  assetsDirExists : Bool
  dbExists : Bool
  force : Bool
  globalEx : List Nat → Bool
  globalAssetsDir : List Nat
  configFiles : Option (List (List Nat))
  usersFiles : Option (List (List Nat))
  blueprintFiles : Option (List (List Nat))
  entityFiles : Option (List (List Nat))
  metadataFile : Option (List Nat)

/-- The fatal, eagerly raised errors of `packDirectory` (worlds.js:572-597),
each ending the process before any write. -/
inductive PackError where
  | missingInputDir : PackError
  | notADirectory : PackError
  | missingAssetsDir : PackError
  | databaseConflict : PackError

/-- The outcome of a `pack` invocation: the effects performed, the fatal
validation error if one occurred (with no effects performed), and whether a
thrown per-record error aborted the remainder of the batch (caught and
logged at top level). -/
structure PackRes where
  effects : List DbEffect
  fatal : Option PackError
  aborted : Bool

/-- The import phases of `packDirectory` (worlds.js:641-693) in source
order — schema, config, users, asset copies, blueprints, entities — with a
thrown per-record error aborting every later phase. -/
def packPhases (inp : PackInput) (assetPairs : List (List Nat × List Nat)) : List DbEffect × Bool :=
  let (ce, cab) :=
    match inp.configFiles with
    | some fs => importConfigFiles fs
    | none => ([], false)
  if cab then (DbEffect.schema :: ce, true)
  else
    let (ue, uab) :=
      match inp.usersFiles with
      | some fs => importUsersFiles fs
      | none => ([], false)
    if uab then (DbEffect.schema :: ce ++ ue, true)
    else
      let copies := copyAssetsPhase inp.globalEx inp.globalAssetsDir [] assetPairs
      let (be, bab) :=
        match inp.blueprintFiles with
        | some fs => importBlueprintsFiles assetPairs fs
        | none => ([], false)
      if bab then (DbEffect.schema :: ce ++ ue ++ copies ++ be, true)
      else
        let (ee, eab) :=
          match inp.entityFiles with
          | some fs => importEntitiesFiles fs
          | none => ([], false)
        (DbEffect.schema :: ce ++ ue ++ copies ++ be ++ ee, eab)

namespace Worlds

/-- `packDirectory` (worlds.js:565): validates the input directory, the
global assets directory, and the database-conflict rule (an existing database
without `--force` is a fatal error) strictly before performing any write;
with `--force` the existing database is deleted and the import phases run. -/
def packDirectory (inp : PackInput) : PackRes :=
  if !inp.inputDirExists then { effects := [], fatal := some .missingInputDir, aborted := false }
  else if !inp.inputIsDir then { effects := [], fatal := some .notADirectory, aborted := false }
  else if !inp.assetsDirExists then { effects := [], fatal := some .missingAssetsDir, aborted := false }
  else if inp.dbExists && !inp.force then { effects := [], fatal := some .databaseConflict, aborted := false }
  else
    let pre := if inp.dbExists && inp.force then [DbEffect.unlinkDb] else []
    let assetPairs := metaPairs inp.metadataFile
    let (es, ab) := packPhases inp assetPairs
    { effects := pre ++ es, fatal := none, aborted := ab }

end Worlds

/-! ## Database update commands (`packages/cli/rollupManifestPlugin.js` CLI) -/

/-- The columns written by an update command: the serialized payload and the
fresh `updatedAt` timestamp. -/
structure UpdateRecord where
  data : List Nat
  updatedAt : List Nat

/-- The `x || 0` coercion applied to the stored version (numeric or absent
values only; the CLI never stores another type there). -/
def jsNumOrZero : Option Json → Int
  | some (.num v) => v
  | _ => 0

/-- The `blueprint-update` command core (rollupManifestPlugin.js:317-350):
parses the supplied file, forces its `id` to the target id, increments the
stored version only when the payload carries no `version` field, and writes
the serialized payload with a fresh `updatedAt`.  A parse failure is the
caught error path. -/
def blueprintUpdateCmd (optionsId : List Nat) (existingData : List Nat) (fileContent : List Nat) (now : List Nat) : Except (List Nat) UpdateRecord :=
  match jsonParse fileContent with
  | none => .error (jstr "SyntaxError")
  | some updatedData =>
    let updatedData := updatedData.set (jstr "id") (.str optionsId)
    match jsonParse existingData with
    | none => .error (jstr "SyntaxError")
    | some existingParsed =>
      let updatedData :=
        match updatedData.get (jstr "version") with
        | some _ => updatedData
        | none =>
          updatedData.set (jstr "version")
            (.num (jsNumOrZero (existingParsed.get (jstr "version")) + 1))
      .ok { data := Json.stringify updatedData, updatedAt := now }

/-- The `entity-update` command core (rollupManifestPlugin.js:479-512):
parses the supplied file, forces its `id` to the target id, nulls a truthy
`state`, and writes the serialized payload with a fresh `updatedAt`. -/
def entityUpdateCmd (optionsId : List Nat) (fileContent : List Nat) (now : List Nat) : Except (List Nat) UpdateRecord :=
  match jsonParse fileContent with
  | none => .error (jstr "SyntaxError")
  | some updatedData =>
    let updatedData := updatedData.set (jstr "id") (.str optionsId)
    let updatedData :=
      if jsTruthy (updatedData.get (jstr "state")) then
        updatedData.set (jstr "state") Json.null
      else updatedData
    .ok { data := Json.stringify updatedData, updatedAt := now }

namespace Apps

/-- The directory-level `packDirectory` (apps.js:254): reads and parses
`blueprint.json`, collects the referenced assets present in the directory,
and assembles the container bytes.  (Input validation and output-path
selection, which do not affect the bytes, are outside the model.) -/
def packDirectory (files : List (List Nat × List Nat)) : Except (List Nat) (List Nat) :=
  match dirLookup files (jstr "blueprint.json") with
  | none => .error (jstr "MissingBlueprint")
  | some bpBytes =>
    match jsonParse (ab2str bpBytes) with
    | none => .error (jstr "SyntaxError")
    | some blueprintJson =>
      .ok (encodeHyp blueprintJson (collectAssets blueprintJson files))

end Apps

/-! ## Concrete fixtures used by witnesses and counterexamples -/

/-- The expected `importApp` asset record for a packed asset. -/
def expectedAssetOut (a : AssetIn) : AssetOut :=
  { type := some (.str a.type), url := a.url, fileName := lastSeg a.url,
    data := a.data, size := (a.data.length : Int), mime := some (.str a.mime) }

/-- The blueprint of the concrete packing scenario:
`blueprint.json = {"name":"chair","model":"model.glb","props":{}}`. -/
def chairBp : Json :=
  .obj (.cons (jstr "name") (.str (jstr "chair"))
    (.cons (jstr "model") (.str (jstr "model.glb"))
      (.cons (jstr "props") (.obj .nil) .nil)))

/-- A 37-byte model payload. -/
def glbBytes : List Nat := List.range 37

/-- The app directory of the concrete packing scenario. -/
def chairDir : List (List Nat × List Nat) :=
  [(jstr "blueprint.json", str2ab (Json.stringify chairBp)), (jstr "model.glb", glbBytes)]

/-- The chair model asset as collected by `packDirectory`. -/
def chairAsset : AssetIn :=
  { type := jstr "model", url := jstr "model.glb", data := glbBytes,
    mime := jstr "model/gltf-binary" }

/-- A blueprint whose name contains U+00E9 (`é`), whose serialized header is
not ASCII. -/
def accentBp : Json := .obj (.cons (jstr "name") (.str [233]) .nil)

/-- What `importApp` recovers from the `accentBp` container: the 0xE9 byte is
not valid UTF-8, so decoding yields U+FFFD. -/
def accentBpDecoded : Json := .obj (.cons (jstr "name") (.str [65533]) .nil)

/-- A header declaring a 5-byte asset. -/
def truncHeader : Json :=
  .obj (.cons (jstr "blueprint") Json.null
    (.cons (jstr "assets")
      (.arr (.cons (.obj (.cons (jstr "type") (.str (jstr "model"))
        (.cons (jstr "url") (.str (jstr "a.glb"))
          (.cons (jstr "size") (.num 5)
            (.cons (jstr "mime") (.str (jstr "x")) .nil))))) .nil)) .nil))

/-- A container whose single asset declares 5 bytes but only 3 remain. -/
def truncContainer : List Nat :=
  let hb := str2ab (Json.stringify truncHeader)
  leBytes32 hb.length ++ hb ++ [1, 2, 3]

/-- A deterministic stand-in for the sha256 collaborator in concrete
computations: any function of the content alone exhibits the same behaviour
on byte-identical contents. -/
def demoHash (content : List Nat) : List Nat :=
  jstr "h" ++ natDigits (content.foldl (fun a c => a * 31 + c + 1) 7 % 100000)

/-- The blueprint of the rewriter round-trip scenario:
`model = "asset://car.glb"` and `props.skin.url = "asset://skin.png"`. -/
def carSkinBp : Json :=
  .obj (.cons (jstr "model") (.str (jstr "asset://car.glb"))
    (.cons (jstr "props") (.obj (.cons (jstr "skin")
      (.obj (.cons (jstr "url") (.str (jstr "asset://skin.png")) .nil)) .nil)) .nil))

/-- The same scenario with an additional `script = "asset://car2.glb"`
reference whose target is byte-identical to `car.glb`. -/
def carDupBp : Json :=
  .obj (.cons (jstr "model") (.str (jstr "asset://car.glb"))
    (.cons (jstr "script") (.str (jstr "asset://car2.glb"))
      (.cons (jstr "props") (.obj (.cons (jstr "skin")
        (.obj (.cons (jstr "url") (.str (jstr "asset://skin.png")) .nil)) .nil)) .nil)))

/-- A concrete asset directory: `car.glb` and `car2.glb` hold identical
bytes, `skin.png` holds different bytes. -/
def c4ContentOf (p : List Nat) : Option (List Nat) :=
  if p = pathJoin (jstr "assets") (jstr "car.glb") then some [1, 2, 3]
  else if p = pathJoin (jstr "assets") (jstr "car2.glb") then some [1, 2, 3]
  else if p = pathJoin (jstr "assets") (jstr "skin.png") then some [9]
  else none

/-- A pack invocation against an existing database without `--force`. -/
def c6Input : PackInput :=
  { inputDirExists := true, inputIsDir := true, assetsDirExists := true,
    dbExists := true, force := false, globalEx := fun _ => false,
    globalAssetsDir := [], configFiles := none, usersFiles := none,
    blueprintFiles := none, entityFiles := none, metadataFile := none }

/-- The same invocation with `--force` supplied. -/
def c6ForceInput : PackInput :=
  { c6Input with force := true }

/-- A database row whose JSON payload does not parse. -/
def c7BadRow : DbRow :=
  { id := jstr "b0", data := jstr "nope", createdAt := jstr "c", updatedAt := jstr "u" }

/-- A well-formed entity row. -/
def c7GoodRow : DbRow :=
  { id := jstr "e1", data := Json.stringify (.obj (.cons (jstr "type") (.str (jstr "app")) .nil)),
    createdAt := jstr "c", updatedAt := jstr "u" }

/-- A well-formed per-record blueprint file. -/
def c7GoodBp : List Nat :=
  Json.stringify (.obj (.cons (jstr "id") (.str (jstr "b2")) .nil))

/-- A well-formed per-record entity file. -/
def c7GoodEntity : List Nat :=
  Json.stringify (.obj (.cons (jstr "id") (.str (jstr "e1")) .nil))

/-- A pack invocation over a fresh database whose blueprints directory holds
a malformed file followed by a well-formed one, and whose entities directory
holds a well-formed file. -/
def c7PackInput : PackInput := { c6Input with
  dbExists := false
  blueprintFiles := some [jstr "nope", c7GoodBp]
  entityFiles := some [c7GoodEntity] }

/-- A stored blueprint row carrying version 5. -/
def c9Existing : List Nat := Json.stringify (.obj (.cons (jstr "version") (.num 5) .nil))

/-- An update payload that itself carries version 5. -/
def c9Payload : List Nat := Json.stringify (.obj (.cons (jstr "version") (.num 5) .nil))

/-- An entity-update payload whose own id differs from the target id. -/
def c10Payload : List Nat :=
  Json.stringify (.obj (.cons (jstr "id") (.str (jstr "b")) .nil))

/-! ## Round-trip of the JSON serializer and parser -/

theorem natDigitsAux_acc (fuel : Nat) : ∀ n acc, natDigitsAux fuel n acc = natDigitsAux fuel n [] ++ acc := by
  induction fuel with
  | zero => intro n acc; rfl
  | succ fuel ih =>
    intro n acc
    by_cases h : n < 10
    · simp [natDigitsAux, h]
    · simp only [natDigitsAux, if_neg h]
      rw [ih (n / 10) ((48 + n % 10) :: acc), ih (n / 10) [48 + n % 10]]
      simp

theorem natDigitsAux_digits (fuel : Nat) : ∀ n, n < fuel → ∀ c ∈ natDigitsAux fuel n [], isDigitUnit c = true := by
  induction fuel with
  | zero => intro n h; omega
  | succ fuel ih =>
    intro n h c hc
    by_cases h10 : n < 10
    · simp [natDigitsAux, h10] at hc
      subst hc
      simp [isDigitUnit]
      omega
    · simp only [natDigitsAux, if_neg h10] at hc
      rw [natDigitsAux_acc] at hc
      rcases List.mem_append.1 hc with hm | hm
      · exact ih (n / 10) (by omega) c hm
      · simp at hm
        subst hm
        simp [isDigitUnit]
        omega

theorem natDigitsAux_ne_nil (fuel n : Nat) (h : n < fuel) : natDigitsAux fuel n [] ≠ [] := by
  cases fuel with
  | zero => omega
  | succ fuel =>
    by_cases h10 : n < 10
    · simp [natDigitsAux, h10]
    · simp only [natDigitsAux, if_neg h10]
      rw [natDigitsAux_acc]
      simp

theorem natDigitsAux_foldl (fuel : Nat) : ∀ n, n < fuel → (natDigitsAux fuel n []).foldl digitStep 0 = n := by
  induction fuel with
  | zero => intro n h; omega
  | succ fuel ih =>
    intro n h
    by_cases h10 : n < 10
    · simp [natDigitsAux, h10, digitStep]
    · simp only [natDigitsAux, if_neg h10]
      rw [natDigitsAux_acc, List.foldl_append, ih (n / 10) (by omega)]
      simp [digitStep]
      omega

theorem headNotDigit_cons (c : Nat) (l : List Nat) (h : isDigitUnit c = false) : headNotDigit (c :: l) := h

theorem parseDigits_append (ds : List Nat) : ∀ rest acc, (∀ c ∈ ds, isDigitUnit c = true) → headNotDigit rest → parseDigits (ds ++ rest) acc = (ds.foldl digitStep acc, rest) := by
  induction ds with
  | nil =>
    intro rest acc _ hrest
    cases rest with
    | nil => rfl
    | cons c r =>
      simp only [headNotDigit] at hrest
      simp [parseDigits, hrest]
  | cons d ds ih =>
    intro rest acc hds hrest
    have hd : isDigitUnit d = true := hds d (by simp)
    simp only [List.cons_append, parseDigits, hd, if_pos, List.append_eq]
    rw [ih rest (acc * 10 + (d - 48)) (fun c hc => hds c (by simp [hc])) hrest]
    simp [digitStep]

theorem natDigits_parse (n : Nat) (rest : List Nat) (hrest : headNotDigit rest) :
    ∃ c cs, natDigits n = c :: cs ∧ isDigitUnit c = true ∧
      parseDigits (cs ++ rest) (c - 48) = (n, rest) := by
  have hne := natDigitsAux_ne_nil (n + 1) n (by omega)
  have hdig := natDigitsAux_digits (n + 1) n (by omega)
  have hfold := natDigitsAux_foldl (n + 1) n (by omega)
  unfold natDigits
  cases hEq : natDigitsAux (n + 1) n [] with
  | nil => exact absurd hEq hne
  | cons c cs =>
    refine ⟨c, cs, rfl, hdig c (by rw [hEq]; simp), ?_⟩
    rw [parseDigits_append cs rest (c - 48) (fun x hx => hdig x (by rw [hEq]; simp [hx])) hrest]
    rw [hEq] at hfold
    simp only [List.foldl_cons] at hfold
    have : digitStep 0 c = c - 48 := by simp [digitStep]
    rw [this] at hfold
    rw [hfold]

theorem hexVal_hexDigitChar (d : Nat) (h : d < 16) : hexVal (hexDigitChar d) = some d := by
  unfold hexDigitChar hexVal
  by_cases h10 : d < 10
  · rw [if_pos h10]
    have h1 : (48 ≤ 48 + d && 48 + d ≤ 57) = true := by
      simp
      omega
    rw [if_pos h1]
    simp
  · rw [if_neg h10]
    have h1 : (48 ≤ 87 + d && 87 + d ≤ 57) = true → False := by
      simp
      omega
    have h2 : (97 ≤ 87 + d && 87 + d ≤ 102) = true := by
      simp
      omega
    cases hb : (48 ≤ 87 + d && 87 + d ≤ 57)
    · rw [if_neg (by simp [hb])]
      rw [if_pos h2]
      simp
    · exact absurd hb h1


theorem parseStringBody_escape (s : List Nat) : ∀ rest, parseStringBody (escapeUnits s ++ 34 :: rest) = some (s, rest) := by
  induction s with
  | nil =>
    intro rest
    show parseStringBody (34 :: rest) = some ([], rest)
    rw [parseStringBody.eq_def]
    norm_num
  | cons c cs ih =>
    intro rest
    by_cases h34 : c = 34
    · subst h34
      show parseStringBody (92 :: 34 :: (escapeUnits cs ++ 34 :: rest)) = _
      rw [parseStringBody.eq_def]
      norm_num [ih]
    · by_cases h92 : c = 92
      · subst h92
        show parseStringBody (92 :: 92 :: (escapeUnits cs ++ 34 :: rest)) = _
        rw [parseStringBody.eq_def]
        norm_num [ih]
      · by_cases h8 : c = 8
        · subst h8
          show parseStringBody (92 :: 98 :: (escapeUnits cs ++ 34 :: rest)) = _
          rw [parseStringBody.eq_def]
          norm_num [ih]
        · by_cases h9 : c = 9
          · subst h9
            show parseStringBody (92 :: 116 :: (escapeUnits cs ++ 34 :: rest)) = _
            rw [parseStringBody.eq_def]
            norm_num [ih]
          · by_cases h10 : c = 10
            · subst h10
              show parseStringBody (92 :: 110 :: (escapeUnits cs ++ 34 :: rest)) = _
              rw [parseStringBody.eq_def]
              norm_num [ih]
            · by_cases h12 : c = 12
              · subst h12
                show parseStringBody (92 :: 102 :: (escapeUnits cs ++ 34 :: rest)) = _
                rw [parseStringBody.eq_def]
                norm_num [ih]
              · by_cases h13 : c = 13
                · subst h13
                  show parseStringBody (92 :: 114 :: (escapeUnits cs ++ 34 :: rest)) = _
                  rw [parseStringBody.eq_def]
                  norm_num [ih]
                · by_cases h32 : c < 32
                  · have hesc : escapeUnits (c :: cs) =
                        92 :: 117 :: 48 :: 48 :: hexDigitChar (c / 16) ::
                          hexDigitChar (c % 16) :: escapeUnits cs := by
                      simp [escapeUnits, h34, h92, h8, h9, h10, h12, h13, h32]
                    rw [hesc]
                    show parseStringBody (92 :: 117 :: 48 :: 48 :: hexDigitChar (c / 16) ::
                      hexDigitChar (c % 16) :: (escapeUnits cs ++ 34 :: rest)) = _
                    rw [parseStringBody.eq_def]
                    norm_num
                    rw [show hexVal 48 = some 0 from rfl,
                      hexVal_hexDigitChar (c / 16) (by omega),
                      hexVal_hexDigitChar (c % 16) (by omega)]
                    simp [ih]
                    omega
                  · have hesc : escapeUnits (c :: cs) = c :: escapeUnits cs := by
                      simp [escapeUnits, h34, h92, h8, h9, h10, h12, h13, h32]
                    rw [hesc]
                    show parseStringBody (c :: (escapeUnits cs ++ 34 :: rest)) = _
                    rw [parseStringBody.eq_def]
                    simp only [h34, if_neg, if_false, h92, (by omega : ¬ c < 32)]
                    simp [ih, h34, h92, (by omega : ¬ c < 32)]
                    omega

theorem digit_not_ws (c : Nat) (h : isDigitUnit c = true) : isJsonWs c = false := by
  simp [isDigitUnit] at h
  simp [isJsonWs]
  omega

theorem skipWs_cons (c : Nat) (l : List Nat) (h : isJsonWs c = false) : skipWs (c :: l) = c :: l := by
  simp [skipWs, h]

theorem stringify_head (j : Json) : ∃ c cs, Json.stringify j = c :: cs ∧
    isJsonWs c = false ∧ c ≠ 93 ∧ c ≠ 125 ∧ c ≠ 44 ∧ c ≠ 58 := by
  cases j with
  | null => exact ⟨110, _, rfl, by decide, by decide, by decide, by decide, by decide⟩
  | bool b =>
    cases b with
    | true => exact ⟨116, _, rfl, by decide, by decide, by decide, by decide, by decide⟩
    | false => exact ⟨102, _, rfl, by decide, by decide, by decide, by decide, by decide⟩
  | num n =>
    show ∃ c cs, intRepr n = c :: cs ∧ _
    unfold intRepr
    by_cases hneg : n < 0
    · rw [if_pos hneg]
      exact ⟨45, _, rfl, by decide, by decide, by decide, by decide, by decide⟩
    · rw [if_neg hneg]
      have hne := natDigitsAux_ne_nil (n.natAbs + 1) n.natAbs (by omega)
      have hdig := natDigitsAux_digits (n.natAbs + 1) n.natAbs (by omega)
      unfold natDigits
      cases hEq : natDigitsAux (n.natAbs + 1) n.natAbs [] with
      | nil => exact absurd hEq hne
      | cons c cs =>
        have hc : isDigitUnit c = true := hdig c (by rw [hEq]; simp)
        simp [isDigitUnit] at hc
        refine ⟨c, cs, rfl, ?_, by omega, by omega, by omega, by omega⟩
        simp [isJsonWs]
        omega
  | str s => exact ⟨34, _, rfl, by decide, by decide, by decide, by decide, by decide⟩
  | arr elems => exact ⟨91, _, rfl, by decide, by decide, by decide, by decide, by decide⟩
  | obj fields => exact ⟨123, _, rfl, by decide, by decide, by decide, by decide, by decide⟩

theorem jsize_pos (j : Json) : 1 ≤ j.jsize := by
  cases j <;> simp [Json.jsize]

theorem jsizeList_pos (l : JsonList) : 1 ≤ l.jsizeList := by
  cases l with
  | nil => simp [JsonList.jsizeList]
  | cons hd tl =>
    have := jsize_pos hd
    simp [JsonList.jsizeList]
    omega

theorem jsizeFields_pos (f : JsonFields) : 1 ≤ f.jsizeFields := by
  cases f with
  | nil => simp [JsonFields.jsizeFields]
  | cons n v tl =>
    have := jsize_pos v
    simp [JsonFields.jsizeFields]
    omega

theorem headNotDigit_93 (rest : List Nat) : headNotDigit (93 :: rest) := by
  show isDigitUnit 93 = false
  decide

theorem headNotDigit_125 (rest : List Nat) : headNotDigit (125 :: rest) := by
  show isDigitUnit 125 = false
  decide

theorem headNotDigit_44 (rest : List Nat) : headNotDigit (44 :: rest) := by
  show isDigitUnit 44 = false
  decide

mutual

theorem parseValue_stringify : ∀ (fuel : Nat) (j : Json) (rest : List Nat),
    j.jsize ≤ fuel → headNotDigit rest →
    parseValue fuel (Json.stringify j ++ rest) = some (j, rest)
  | 0, j, _, hsize, _ => by
    have := jsize_pos j
    omega
  | fuel + 1, j, rest, hsize, hrest => by
    cases j with
    | null =>
      simp [Json.stringify, parseValue, skipWs, isJsonWs, expectUnits]
    | bool b =>
      cases b <;> simp [Json.stringify, parseValue, skipWs, isJsonWs, expectUnits]
    | num n =>
      by_cases hneg : n < 0
      · have hrepr : Json.stringify (.num n) = 45 :: natDigits n.natAbs := by
          simp [Json.stringify, intRepr, hneg]
        obtain ⟨c, cs, hnd, hcdig, hparse⟩ := natDigits_parse n.natAbs rest hrest
        have hb : 48 ≤ c ∧ c ≤ 57 := by simpa [isDigitUnit] using hcdig
        rw [hrepr, hnd]
        simp only [List.cons_append, parseValue]
        rw [skipWs_cons 45 _ (by decide)]
        simp [hcdig, hparse, -Int.natCast_natAbs]
        omega
      · have hrepr : Json.stringify (.num n) = natDigits n.natAbs := by
          simp [Json.stringify, intRepr, hneg]
        obtain ⟨c, cs, hnd, hcdig, hparse⟩ := natDigits_parse n.natAbs rest hrest
        have hb : 48 ≤ c ∧ c ≤ 57 := by simpa [isDigitUnit] using hcdig
        rw [hrepr, hnd]
        simp only [List.cons_append, parseValue]
        rw [skipWs_cons c _ (digit_not_ws c hcdig)]
        simp [show ¬ c = 110 by omega, show ¬ c = 116 by omega,
          show ¬ c = 102 by omega, show ¬ c = 34 by omega,
          show ¬ c = 91 by omega, show ¬ c = 123 by omega,
          show ¬ c = 45 by omega, hcdig, hparse, -Int.natCast_natAbs]
        omega
    | str s =>
      have hrepr : Json.stringify (.str s) ++ rest =
          34 :: (escapeUnits s ++ 34 :: rest) := by
        simp [Json.stringify]
      rw [hrepr]
      simp only [parseValue]
      rw [skipWs_cons 34 _ (by decide)]
      norm_num
      rw [parseStringBody_escape s rest]
    | arr elems =>
      cases elems with
      | nil =>
        have hrepr : Json.stringify (.arr .nil) ++ rest = 91 :: 93 :: rest := by
          simp [Json.stringify, JsonList.stringify]
        rw [hrepr]
        simp only [parseValue]
        rw [skipWs_cons 91 _ (by decide)]
        norm_num
        rw [skipWs_cons 93 _ (by decide)]
        simp [headIs]
      | cons hd tl =>
        have hsz : JsonList.jsizeList (.cons hd tl) ≤ fuel := by
          simp [Json.jsize] at hsize
          omega
        obtain ⟨c0, cs0, hhd, hnws, h93, _, _, _⟩ := stringify_head hd
        have hY : ∃ Y, JsonList.stringify (.cons hd tl) = c0 :: Y := by
          cases tl with
          | nil => exact ⟨cs0, by simp [JsonList.stringify, hhd]⟩
          | cons k tl2 =>
            exact ⟨cs0 ++ 44 :: JsonList.stringify (.cons k tl2),
              by simp [JsonList.stringify, hhd]⟩
        obtain ⟨Y, hYe⟩ := hY
        have hrepr : Json.stringify (.arr (.cons hd tl)) ++ rest =
            91 :: (JsonList.stringify (.cons hd tl) ++ 93 :: rest) := by
          simp [Json.stringify]
        rw [hrepr]
        simp only [parseValue]
        rw [skipWs_cons 91 _ (by decide)]
        norm_num
        have hskip : skipWs (JsonList.stringify (.cons hd tl) ++ 93 :: rest) =
            JsonList.stringify (.cons hd tl) ++ 93 :: rest := by
          rw [hYe, List.cons_append]
          exact skipWs_cons c0 _ hnws
        rw [hskip]
        have hhead : headIs 93 (JsonList.stringify (.cons hd tl) ++ 93 :: rest) = false := by
          rw [hYe, List.cons_append]
          simp [headIs, h93]
        rw [hhead]
        norm_num
        rw [parseElems_stringify fuel hd tl rest hsz]
    | obj fields =>
      cases fields with
      | nil =>
        have hrepr : Json.stringify (.obj .nil) ++ rest = 123 :: 125 :: rest := by
          simp [Json.stringify, JsonFields.stringify]
        rw [hrepr]
        simp only [parseValue]
        rw [skipWs_cons 123 _ (by decide)]
        norm_num
        rw [skipWs_cons 125 _ (by decide)]
        simp [headIs]
      | cons n v tl =>
        have hsz : JsonFields.jsizeFields (.cons n v tl) ≤ fuel := by
          simp [Json.jsize] at hsize
          omega
        have hY : ∃ Y, JsonFields.stringify (.cons n v tl) = 34 :: Y := by
          cases tl with
          | nil => exact ⟨escapeUnits n ++ [34, 58] ++ Json.stringify v,
              by simp [JsonFields.stringify]⟩
          | cons m w tl2 =>
            exact ⟨escapeUnits n ++ [34, 58] ++ Json.stringify v ++
              44 :: JsonFields.stringify (.cons m w tl2),
              by simp [JsonFields.stringify]⟩
        obtain ⟨Y, hYe⟩ := hY
        have hrepr : Json.stringify (.obj (.cons n v tl)) ++ rest =
            123 :: (JsonFields.stringify (.cons n v tl) ++ 125 :: rest) := by
          simp [Json.stringify]
        rw [hrepr]
        simp only [parseValue]
        rw [skipWs_cons 123 _ (by decide)]
        norm_num
        have hskip : skipWs (JsonFields.stringify (.cons n v tl) ++ 125 :: rest) =
            JsonFields.stringify (.cons n v tl) ++ 125 :: rest := by
          rw [hYe, List.cons_append]
          exact skipWs_cons 34 _ (by decide)
        rw [hskip]
        have hhead : headIs 125 (JsonFields.stringify (.cons n v tl) ++ 125 :: rest) = false := by
          rw [hYe, List.cons_append]
          simp [headIs]
        rw [hhead]
        norm_num
        rw [parseMembers_stringify fuel n v tl rest hsz]

theorem parseElems_stringify : ∀ (fuel : Nat) (hd : Json) (tl : JsonList) (rest : List Nat),
    JsonList.jsizeList (.cons hd tl) ≤ fuel →
    parseElems fuel (JsonList.stringify (.cons hd tl) ++ 93 :: rest) = some (.cons hd tl, rest)
  | 0, hd, tl, _, hsize => by
    have := jsize_pos hd
    have := jsizeList_pos tl
    simp [JsonList.jsizeList] at hsize
    omega
  | fuel + 1, hd, tl, rest, hsize => by
    have h1 := jsize_pos hd
    have h2 := jsizeList_pos tl
    simp only [JsonList.jsizeList] at hsize
    cases tl with
    | nil =>
      have hser : JsonList.stringify (.cons hd .nil) = Json.stringify hd := by
        simp [JsonList.stringify]
      rw [hser]
      simp only [parseElems]
      rw [parseValue_stringify fuel hd (93 :: rest)
        (by simp [JsonList.jsizeList] at hsize; omega) (headNotDigit_93 rest)]
      simp [skipWs, isJsonWs]
    | cons k tl2 =>
      have hser : JsonList.stringify (.cons hd (.cons k tl2)) ++ 93 :: rest =
          Json.stringify hd ++ (44 :: (JsonList.stringify (.cons k tl2) ++ 93 :: rest)) := by
        simp [JsonList.stringify]
      rw [hser]
      simp only [parseElems]
      have h3 := jsize_pos k
      have h4 := jsizeList_pos tl2
      simp only [JsonList.jsizeList] at h2 hsize
      rw [parseValue_stringify fuel hd _ (by omega) (headNotDigit_44 _)]
      simp only [skipWs, isJsonWs]
      norm_num
      rw [parseElems_stringify fuel k tl2 rest (by simp [JsonList.jsizeList]; omega)]

theorem parseMembers_stringify : ∀ (fuel : Nat) (n : List Nat) (v : Json) (tl : JsonFields) (rest : List Nat),
    JsonFields.jsizeFields (.cons n v tl) ≤ fuel →
    parseMembers fuel (JsonFields.stringify (.cons n v tl) ++ 125 :: rest) = some (.cons n v tl, rest)
  | 0, _, v, tl, _, hsize => by
    have := jsize_pos v
    have := jsizeFields_pos tl
    simp [JsonFields.jsizeFields] at hsize
    omega
  | fuel + 1, n, v, tl, rest, hsize => by
    have h1 := jsize_pos v
    have h2 := jsizeFields_pos tl
    simp only [JsonFields.jsizeFields] at hsize
    cases tl with
    | nil =>
      have hser : JsonFields.stringify (.cons n v .nil) ++ 125 :: rest =
          34 :: (escapeUnits n ++ 34 :: (58 :: (Json.stringify v ++ 125 :: rest))) := by
        simp [JsonFields.stringify]
      rw [hser]
      simp only [parseMembers]
      rw [skipWs_cons 34 _ (by decide)]
      simp only [parseStringBody_escape n]
      rw [skipWs_cons 58 _ (by decide)]
      norm_num
      rw [parseValue_stringify fuel v (125 :: rest)
        (by simp [JsonFields.jsizeFields] at hsize; omega) (headNotDigit_125 rest)]
      simp [skipWs, isJsonWs]
    | cons m w tl2 =>
      have hser : JsonFields.stringify (.cons n v (.cons m w tl2)) ++ 125 :: rest =
          34 :: (escapeUnits n ++ 34 :: (58 :: (Json.stringify v ++
            (44 :: (JsonFields.stringify (.cons m w tl2) ++ 125 :: rest))))) := by
        simp [JsonFields.stringify]
      rw [hser]
      simp only [parseMembers]
      rw [skipWs_cons 34 _ (by decide)]
      simp only [parseStringBody_escape n]
      rw [skipWs_cons 58 _ (by decide)]
      norm_num
      have h3 := jsize_pos w
      have h4 := jsizeFields_pos tl2
      simp only [JsonFields.jsizeFields] at h2 hsize
      rw [parseValue_stringify fuel v _ (by omega) (headNotDigit_44 _)]
      simp only [skipWs, isJsonWs]
      norm_num
      rw [parseMembers_stringify fuel m w tl2 rest (by simp [JsonFields.jsizeFields]; omega)]

end

mutual

theorem jsize_le_stringify : ∀ j : Json, j.jsize ≤ (Json.stringify j).length + 1
  | .null => by simp [Json.jsize, Json.stringify]
  | .bool b => by cases b <;> simp [Json.jsize, Json.stringify]
  | .num n => by simp [Json.jsize]
  | .str s => by simp [Json.jsize]
  | .arr elems => by
    have := jsizeList_le_stringify elems
    simp [Json.jsize, Json.stringify]
    omega
  | .obj fields => by
    have := jsizeFields_le_stringify fields
    simp [Json.jsize, Json.stringify]
    omega

theorem jsizeList_le_stringify : ∀ l : JsonList, l.jsizeList ≤ (JsonList.stringify l).length + 2
  | .nil => by simp [JsonList.jsizeList, JsonList.stringify]
  | .cons hd .nil => by
    have := jsize_le_stringify hd
    simp [JsonList.jsizeList, JsonList.stringify]
    omega
  | .cons hd (.cons k tl) => by
    have h1 := jsize_le_stringify hd
    have h2 := jsizeList_le_stringify (.cons k tl)
    simp [JsonList.jsizeList, JsonList.stringify] at *
    omega

theorem jsizeFields_le_stringify : ∀ f : JsonFields, f.jsizeFields ≤ (JsonFields.stringify f).length + 2
  | .nil => by simp [JsonFields.jsizeFields, JsonFields.stringify]
  | .cons n v .nil => by
    have := jsize_le_stringify v
    simp [JsonFields.jsizeFields, JsonFields.stringify]
    omega
  | .cons n v (.cons m w tl) => by
    have h1 := jsize_le_stringify v
    have h2 := jsizeFields_le_stringify (.cons m w tl)
    simp [JsonFields.jsizeFields, JsonFields.stringify] at *
    omega

end

/-- `JSON.parse ∘ JSON.stringify` is the identity on the modelled JSON
values: the string-level round trip of the serializer and parser. -/
theorem jsonParse_stringify (j : Json) : jsonParse (Json.stringify j) = some j := by
  unfold jsonParse
  have hfuel : j.jsize ≤ (Json.stringify j).length + 1 := jsize_le_stringify j
  have h := parseValue_stringify ((Json.stringify j).length + 1) j [] hfuel trivial
  rw [List.append_nil] at h
  rw [h]
  simp [skipWs]

/-! ## Byte-level lemmas -/

theorem utf8DecodeAux_ascii : ∀ (fuel : Nat) (s : List Nat), s.length < fuel →
    (∀ c ∈ s, c < 128) → utf8DecodeAux fuel s = s := by
  intro fuel
  induction fuel with
  | zero => intro s h; omega
  | succ fuel ih =>
    intro s hlen hascii
    cases s with
    | nil => rfl
    | cons b rest =>
      have hb : b < 128 := hascii b (by simp)
      simp only [utf8DecodeAux, if_pos hb]
      rw [ih rest (by simp at hlen; omega) (fun c hc => hascii c (by simp [hc]))]

/-- UTF-8 decoding is the identity on ASCII byte sequences. -/
theorem utf8Decode_ascii (s : List Nat) (h : ∀ c ∈ s, c < 128) : utf8Decode s = s :=
  utf8DecodeAux_ascii (s.length + 1) s (by omega) h

/-- `str2ab` is the identity on ASCII strings. -/
theorem str2ab_ascii (s : List Nat) (h : ∀ c ∈ s, c < 128) : str2ab s = s := by
  unfold str2ab
  induction s with
  | nil => rfl
  | cons c cs ih =>
    have hc : c < 128 := h c (by simp)
    simp only [List.map_cons]
    rw [Nat.mod_eq_of_lt (by omega), ih (fun x hx => h x (by simp [hx]))]

theorem leDecode32_leBytes32 (n : Nat) : leDecode32 (leBytes32 n) = n % 4294967296 := by
  simp [leBytes32, leDecode32]
  omega

theorem leDecode32_leBytes32_small (n : Nat) (h : n < 4294967296) :
    leDecode32 (leBytes32 n) = n := by
  rw [leDecode32_leBytes32, Nat.mod_eq_of_lt h]

theorem leBytes32_length (n : Nat) : (leBytes32 n).length = 4 := rfl

theorem jsSlice_middle (pre mid suf : List Nat) :
    jsSlice (pre ++ mid ++ suf) (pre.length : Int) ((pre.length : Int) + (mid.length : Int)) = mid := by
  unfold jsSlice
  dsimp only
  have hlen : ((pre ++ mid ++ suf).length : Int) =
      (pre.length : Int) + mid.length + suf.length := by
    simp [List.length_append]
    ring
  rw [if_neg (by omega : ¬ (pre.length : Int) < 0),
    if_neg (by omega : ¬ (pre.length : Int) + (mid.length : Int) < 0)]
  rw [min_eq_left (by rw [hlen]; omega),
    min_eq_left (by rw [hlen]; omega)]
  have h1 : ((pre.length : Int)).toNat = pre.length := by omega
  have h2 : ((pre.length : Int) + (mid.length : Int) - (pre.length : Int)).toNat = mid.length := by
    omega
  rw [h1, h2, List.append_assoc, List.drop_left, List.take_left]

theorem toList_ofList (l : List Json) : (JsonList.ofList l).toList = l := by
  induction l with
  | nil => rfl
  | cons j js ih => simp [JsonList.ofList, JsonList.toList, ih]

theorem assetDescriptor_get_type (a : AssetIn) :
    (assetDescriptor a).get (jstr "type") = some (.str a.type) := rfl

theorem assetDescriptor_get_url (a : AssetIn) :
    (assetDescriptor a).get (jstr "url") = some (.str a.url) := rfl

theorem assetDescriptor_get_size (a : AssetIn) :
    (assetDescriptor a).get (jstr "size") = some (.num (a.data.length : Int)) := rfl

theorem assetDescriptor_get_mime (a : AssetIn) :
    (assetDescriptor a).get (jstr "mime") = some (.str a.mime) := rfl

theorem hypHeader_get_blueprint (b : Json) (assets : List AssetIn) :
    (hypHeader b assets).get (jstr "blueprint") = some b := rfl

theorem hypHeader_get_assets (b : Json) (assets : List AssetIn) :
    (hypHeader b assets).get (jstr "assets") =
      some (.arr (JsonList.ofList (assets.map assetDescriptor))) := rfl

theorem extractAssets_spec : ∀ (assets : List AssetIn) (pre : List Nat),
    extractAssets (pre ++ (assets.map AssetIn.data).flatten) (pre.length : Int)
      (assets.map assetDescriptor) = .ok (assets.map expectedAssetOut) := by
  intro assets
  induction assets with
  | nil => intro pre; simp [extractAssets]
  | cons a rest ih =>
    intro pre
    have hbuf : pre ++ (a.data :: List.map AssetIn.data rest).flatten =
        (pre ++ a.data) ++ (List.map AssetIn.data rest).flatten := by
      simp [List.flatten]
    simp only [List.map_cons, extractAssets, assetDescriptor_get_url,
      assetDescriptor_get_size]
    rw [hbuf]
    have hslice : jsSlice ((pre ++ a.data) ++ (rest.map AssetIn.data).flatten)
        (pre.length : Int) ((pre.length : Int) + (a.data.length : Int)) = a.data := by
      have := jsSlice_middle pre a.data ((rest.map AssetIn.data).flatten)
      rw [List.append_assoc] at this ⊢
      exact this
    rw [hslice]
    have hpos : (pre.length : Int) + (a.data.length : Int) =
        (((pre ++ a.data).length : Nat) : Int) := by
      simp [List.length_append]
    rw [hpos, ih (pre ++ a.data)]
    simp only [expectedAssetOut, assetDescriptor_get_type, assetDescriptor_get_mime]
    rfl

/-! ## Claim C1 -/

/-- C1 (corrected): for every blueprint and asset byte sequences whose
serialized container header is ASCII (and shorter than 2^32 bytes), decoding
the container produced by encoding returns the blueprint and byte-identical
asset contents.  (Without the ASCII restriction the claim is false:
`str2ab` truncates UTF-16 code units modulo 256 while `ab2str` decodes
UTF-8, see the counterexample.) -/
theorem claim_C1_roundtrip (blueprint : Json) (assets : List AssetIn)
    (hascii : ∀ c ∈ Json.stringify (hypHeader blueprint assets), c < 128)
    (hsize : (Json.stringify (hypHeader blueprint assets)).length < 4294967296) :
    importApp (encodeHyp blueprint assets) =
      .ok (some blueprint, assets.map expectedAssetOut) := by
  set s := Json.stringify (hypHeader blueprint assets) with hs
  have hstr2ab : str2ab s = s := str2ab_ascii s hascii
  have hbuf : encodeHyp blueprint assets =
      leBytes32 s.length ++ s ++ (assets.map AssetIn.data).flatten := by
    unfold encodeHyp
    rw [← hs, hstr2ab]
  rw [hbuf]
  unfold importApp
  have hlen4 : ¬ (leBytes32 s.length ++ s ++ (assets.map AssetIn.data).flatten).length < 4 := by
    simp [List.length_append, leBytes32]
  rw [if_neg hlen4]
  dsimp only
  have htake4 : (leBytes32 s.length ++ s ++ (assets.map AssetIn.data).flatten).take 4 =
      leBytes32 s.length := by
    rw [List.append_assoc]
    have := List.take_left (leBytes32 s.length) (s ++ (assets.map AssetIn.data).flatten)
    rw [leBytes32_length] at this
    exact this
  have hhsize : leDecode32 ((leBytes32 s.length ++ s ++ (assets.map AssetIn.data).flatten).take 4) = s.length := by
    rw [htake4, leDecode32_leBytes32_small s.length hsize]
  rw [hhsize]
  have hdrop4 : (leBytes32 s.length ++ s ++ (assets.map AssetIn.data).flatten).drop 4 =
      s ++ (assets.map AssetIn.data).flatten := by
    rw [List.append_assoc]
    have := List.drop_left (leBytes32 s.length) (s ++ (assets.map AssetIn.data).flatten)
    rw [leBytes32_length] at this
    exact this
  rw [hdrop4, List.take_left]
  have hraw : ab2str s = s := utf8Decode_ascii s hascii
  rw [hraw, hs, jsonParse_stringify]
  simp only [hypHeader_get_assets, hypHeader_get_blueprint]
  rw [toList_ofList]
  have hpre : ((4 : Int) + ((Json.stringify (hypHeader blueprint assets)).length : Int)) =
      (((leBytes32 s.length ++ s).length : Nat) : Int) := by
    simp [List.length_append, leBytes32, hs]
    omega
  rw [hpre]
  have hassoc : leBytes32 s.length ++ s ++ (assets.map AssetIn.data).flatten =
      (leBytes32 s.length ++ s) ++ (assets.map AssetIn.data).flatten := rfl
  rw [hassoc, extractAssets_spec assets (leBytes32 s.length ++ s)]
  rfl

/-- C1 counterexample: the blueprint whose name is the single unit U+00E9
does not survive the round trip — `importApp` succeeds but returns a
blueprint whose name is the replacement character U+FFFD, refuting the claim
as stated over every blueprint. -/
theorem claim_C1_counterexample :
    importApp (encodeHyp accentBp []) = .ok (some accentBpDecoded, []) ∧
      accentBpDecoded ≠ accentBp := by
  constructor
  · rfl
  · simp [accentBpDecoded, accentBp]

set_option maxRecDepth 100000 in
/-- C1 witness: the concrete chair app round-trips exactly. -/
theorem claim_C1_witness :
    importApp (encodeHyp chairBp [chairAsset]) =
      .ok (some chairBp, [chairAsset].map expectedAssetOut) :=
  claim_C1_roundtrip chairBp [chairAsset] (by decide) (by decide)

/-! ## Claim C2 -/

set_option maxRecDepth 100000 in
/-- C2 (corrected): the container bytes are a 4-byte little-endian length
`L`, then exactly `L` bytes that are the header's JSON serialization written
as UTF-16 code units reduced modulo 256 (`str2ab`) — which coincides with
UTF-8 exactly when the serialization is ASCII — then each asset's raw bytes
in descriptor order, each contributing exactly its declared size; and in the
concrete chair scenario the first 4 bytes decode to `L`, the next `L` bytes
parse as JSON whose assets list holds the
`{type:"model",url:"model.glb",size:37,mime:"model/gltf-binary"}` descriptor,
and the final 37 bytes are the model bytes. -/
theorem claim_C2_layout :
    (∀ (blueprint : Json) (assets : List AssetIn),
      encodeHyp blueprint assets =
        leBytes32 (str2ab (Json.stringify (hypHeader blueprint assets))).length ++
          str2ab (Json.stringify (hypHeader blueprint assets)) ++
          (assets.map AssetIn.data).flatten ∧
      leDecode32 ((encodeHyp blueprint assets).take 4) =
        (str2ab (Json.stringify (hypHeader blueprint assets))).length % 4294967296 ∧
      ((encodeHyp blueprint assets).drop 4).take
          (str2ab (Json.stringify (hypHeader blueprint assets))).length =
        str2ab (Json.stringify (hypHeader blueprint assets)) ∧
      (encodeHyp blueprint assets).drop
          (4 + (str2ab (Json.stringify (hypHeader blueprint assets))).length) =
        (assets.map AssetIn.data).flatten) ∧
    (Apps.packDirectory chairDir = .ok (encodeHyp chairBp [chairAsset]) ∧
      leDecode32 ((encodeHyp chairBp [chairAsset]).take 4) =
        (str2ab (Json.stringify (hypHeader chairBp [chairAsset]))).length ∧
      jsonParse (ab2str (((encodeHyp chairBp [chairAsset]).drop 4).take
          (leDecode32 ((encodeHyp chairBp [chairAsset]).take 4)))) =
        some (hypHeader chairBp [chairAsset]) ∧
      (hypHeader chairBp [chairAsset]).get (jstr "assets") =
        some (.arr (.cons (assetDescriptor chairAsset) .nil)) ∧
      (assetDescriptor chairAsset).get (jstr "type") = some (.str (jstr "model")) ∧
      (assetDescriptor chairAsset).get (jstr "url") = some (.str (jstr "model.glb")) ∧
      (assetDescriptor chairAsset).get (jstr "size") = some (.num 37) ∧
      (assetDescriptor chairAsset).get (jstr "mime") =
        some (.str (jstr "model/gltf-binary")) ∧
      (encodeHyp chairBp [chairAsset]).drop
          ((encodeHyp chairBp [chairAsset]).length - 37) = glbBytes) := by
  constructor
  · intro blueprint assets
    set hb := str2ab (Json.stringify (hypHeader blueprint assets)) with hhb
    refine ⟨rfl, ?_, ?_, ?_⟩
    · have htake4 : (encodeHyp blueprint assets).take 4 = leBytes32 hb.length := by
        show (leBytes32 hb.length ++ hb ++ (assets.map AssetIn.data).flatten).take 4 = _
        rw [List.append_assoc]
        have := List.take_left (leBytes32 hb.length) (hb ++ (assets.map AssetIn.data).flatten)
        rw [leBytes32_length] at this
        exact this
      rw [htake4, leDecode32_leBytes32]
    · have hdrop4 : (encodeHyp blueprint assets).drop 4 =
          hb ++ (assets.map AssetIn.data).flatten := by
        show (leBytes32 hb.length ++ hb ++ (assets.map AssetIn.data).flatten).drop 4 = _
        rw [List.append_assoc]
        have := List.drop_left (leBytes32 hb.length) (hb ++ (assets.map AssetIn.data).flatten)
        rw [leBytes32_length] at this
        exact this
      rw [hdrop4, List.take_left]
    · show (leBytes32 hb.length ++ hb ++ (assets.map AssetIn.data).flatten).drop
          (4 + hb.length) = _
      have hlen : 4 + hb.length = (leBytes32 hb.length ++ hb).length := by
        simp [List.length_append, leBytes32]
        omega
      rw [hlen]
      exact List.drop_left (leBytes32 hb.length ++ hb) ((assets.map AssetIn.data).flatten)
  · exact ⟨rfl, rfl, rfl, rfl, rfl, rfl, rfl, rfl, rfl⟩

set_option maxRecDepth 100000 in
/-- C2 counterexample: for the blueprint whose name contains U+00E9, the
bytes following the 4-byte length prefix are not the UTF-8 serialization of
the header (they are the code units truncated modulo 256), refuting the
"UTF-8" byte-layout claim as stated. -/
theorem claim_C2_counterexample :
    (encodeHyp accentBp []).drop 4 ≠
        utf8Encode (Json.stringify (hypHeader accentBp [])) ∧
      (encodeHyp accentBp []).length - 4 ≠
        (utf8Encode (Json.stringify (hypHeader accentBp []))).length := by
  constructor
  · decide
  · decide

/-! ## Claim C3 -/

/-- C3 (corrected): when the header region does not parse as JSON even after
both recovery passes, `importApp` fails with the (uncaught) syntax error —
but oversized declared sizes do NOT cause a failure: `ArrayBuffer.slice`
clamps, so the decoder silently returns truncated asset bytes, as the
concrete 5-declared/3-available container shows. -/
theorem claim_C3_corrupt_header (buffer : List Nat)
    (hlen : ¬ buffer.length < 4)
    (h1 : jsonParse (ab2str ((buffer.drop 4).take (leDecode32 (buffer.take 4)))) = none)
    (h2 : jsonParse (fixKnownFields
        (ab2str ((buffer.drop 4).take (leDecode32 (buffer.take 4)))).length
        (ab2str ((buffer.drop 4).take (leDecode32 (buffer.take 4))))) = none)
    (h3 : jsonParse ((ab2str ((buffer.drop 4).take
        (leDecode32 (buffer.take 4)))).filter printableAscii) = none) :
    importApp buffer = .error (jstr "SyntaxError") ∧
      importApp truncContainer =
        .ok (some Json.null,
          [{ type := some (.str (jstr "model")), url := jstr "a.glb",
             fileName := jstr "a.glb", data := [1, 2, 3], size := 5,
             mime := some (.str (jstr "x")) : AssetOut }]) := by
  constructor
  · unfold importApp
    rw [if_neg hlen]
    dsimp only
    rw [h1]
    unfold parseHypHeader
    dsimp only
    simp only [h2, h3]
  · rfl

set_option maxRecDepth 100000 in
/-- C3 counterexample: a container declaring a 5-byte asset with only 3
bytes remaining decodes without any error, returning the 3 truncated bytes —
refuting the claim that such input fails with a `CorruptContainer` error. -/
theorem claim_C3_counterexample :
    importApp truncContainer =
        .ok (some Json.null,
          [{ type := some (.str (jstr "model")), url := jstr "a.glb",
             fileName := jstr "a.glb", data := [1, 2, 3], size := 5,
             mime := some (.str (jstr "x")) : AssetOut }]) ∧
      (∀ e, importApp truncContainer ≠ .error e) ∧
      (5 : Int) > ((truncContainer.length : Int) -
        (4 + ((str2ab (Json.stringify truncHeader)).length : Int))) := by
  refine ⟨rfl, ?_, by decide⟩
  intro e h
  rw [show importApp truncContainer =
    .ok (some Json.null,
      [{ type := some (.str (jstr "model")), url := jstr "a.glb",
         fileName := jstr "a.glb", data := [1, 2, 3], size := 5,
         mime := some (.str (jstr "x")) : AssetOut }]) from rfl] at h
  exact Except.noConfusion h

set_option maxRecDepth 100000 in
/-- C3 witness: a container whose 3-byte header region is the non-JSON text
`xyz` fails with the syntax error. -/
theorem claim_C3_witness :
    importApp ([3, 0, 0, 0] ++ jstr "xyz") = .error (jstr "SyntaxError") :=
  (claim_C3_corrupt_header ([3, 0, 0, 0] ++ jstr "xyz")
    (by decide) (by rfl) (by rfl) (by rfl)).1

/-! ## Claim C8 -/

theorem searchByName_find (fsEx : List Nat → Bool) (fileName : List Nat) :
    ∀ dirs : List (List Nat), (∀ d ∈ dirs, d ≠ []) →
    (∀ d x, d ≠ [] → x ≠ [] → fsEx (pathJoin d x) = true → fsEx d = true) →
    (searchByName fsEx fileName dirs).map Prod.fst =
      (dirs.map (fun d => pathJoin d fileName)).find? fsEx := by
  intro dirs
  induction dirs with
  | nil => intro _ _; rfl
  | cons d ds ih =>
    intro hne hmono
    have hd : d ≠ [] := hne d (by simp)
    by_cases hdir : fsEx d = true
    · simp only [searchByName, hdir, if_pos]
      by_cases hfile : fsEx (pathJoin d fileName) = true
      · simp only [List.map_cons]
        rw [List.find?_cons_of_pos _ hfile, if_pos hfile]
        rfl
      · simp only [Bool.not_eq_true] at hfile
        simp only [List.map_cons]
        rw [List.find?_cons_of_neg _ (by simp [hfile]),
          if_neg (by simp [hfile])]
        exact ih (fun x hx => hne x (by simp [hx])) hmono
    · simp only [Bool.not_eq_true] at hdir
      simp only [searchByName, hdir, Bool.false_eq_true, if_false]
      have hfile : fsEx (pathJoin d fileName) = false := by
        by_cases hfn : fileName = []
        · subst hfn
          simp only [pathJoin, if_neg hd]
          simpa using hdir
        · by_contra hcontra
          simp only [Bool.not_eq_false] at hcontra
          rw [hmono d fileName hd hfn hcontra] at hdir
          exact Bool.noConfusion hdir
      simp only [List.map_cons]
      rw [List.find?_cons_of_neg _ (by simp [hfile])]
      exact ih (fun x hx => hne x (by simp [hx])) hmono

theorem searchByPath_find (fsEx : List Nat → Bool) (cleanPath : List Nat) :
    ∀ dirs : List (List Nat), (∀ d ∈ dirs, d ≠ []) →
    (∀ d x, d ≠ [] → x ≠ [] → fsEx (pathJoin d x) = true → fsEx d = true) →
    (searchByPath fsEx cleanPath dirs).map Prod.fst =
      (dirs.map (fun d => pathJoin d cleanPath)).find? fsEx := by
  intro dirs
  induction dirs with
  | nil => intro _ _; rfl
  | cons d ds ih =>
    intro hne hmono
    have hd : d ≠ [] := hne d (by simp)
    by_cases hdir : fsEx d = true
    · simp only [searchByPath, hdir, if_pos]
      by_cases hfile : fsEx (pathJoin d cleanPath) = true
      · simp only [List.map_cons]
        rw [List.find?_cons_of_pos _ hfile, if_pos hfile]
        rfl
      · simp only [Bool.not_eq_true] at hfile
        simp only [List.map_cons]
        rw [List.find?_cons_of_neg _ (by simp [hfile]),
          if_neg (by simp [hfile])]
        exact ih (fun x hx => hne x (by simp [hx])) hmono
    · simp only [Bool.not_eq_true] at hdir
      simp only [searchByPath, hdir, Bool.false_eq_true, if_false]
      have hfile : fsEx (pathJoin d cleanPath) = false := by
        by_cases hfn : cleanPath = []
        · subst hfn
          simp only [pathJoin, if_neg hd]
          simpa using hdir
        · by_contra hcontra
          simp only [Bool.not_eq_false] at hcontra
          rw [hmono d cleanPath hd hfn hcontra] at hdir
          exact Bool.noConfusion hdir
      simp only [List.map_cons]
      rw [List.find?_cons_of_neg _ (by simp [hfile])]
      exact ih (fun x hx => hne x (by simp [hx])) hmono

/-- C8 (confirmed): over any filesystem in which a file's existence implies
its directory's existence (and non-degenerate search directories),
`findAsset` returns exactly the first existing candidate in the
specification's order — literal path, then basename per search directory in
order, then sub-path per search directory in order — and `none` when no
candidate exists. -/
theorem claim_C8_findAsset_order (fsEx : List Nat → Bool) (assetPath : List Nat)
    (searchDirs : List (List Nat))
    (hne : ∀ d ∈ searchDirs, d ≠ [])
    (hmono : ∀ d x, d ≠ [] → x ≠ [] → fsEx (pathJoin d x) = true → fsEx d = true) :
    (findAsset fsEx assetPath searchDirs).map Prod.fst =
      (findAssetCandidates assetPath searchDirs).find? fsEx := by
  unfold findAsset findAssetCandidates
  dsimp only
  generalize (if (jstr "asset://").isPrefixOf assetPath then assetPath.drop 8 else assetPath) = cleanPath
  by_cases hlit : fsEx cleanPath = true
  · rw [if_pos hlit, List.find?_append, List.find?_cons_of_pos _ hlit]
    rfl
  · simp only [Bool.not_eq_true] at hlit
    rw [if_neg (by simp [hlit]), List.find?_append,
      List.find?_cons_of_neg _ (by simp [hlit])]
    rw [← searchByName_find fsEx (pathBasename cleanPath) searchDirs hne hmono,
      ← searchByPath_find fsEx cleanPath searchDirs hne hmono]
    cases hsn : searchByName fsEx (pathBasename cleanPath) searchDirs with
    | none => simp [hsn]
    | some hit => simp [hsn]

/-- C8 witness: with only the literal file `pic.png` existing and no search
directories, `findAsset` resolves `asset://pic.png` through the
literal-path rule, matching the specified candidate order. -/
theorem claim_C8_witness :
    (findAsset (fun p => p = jstr "pic.png") (jstr "asset://pic.png") []).map Prod.fst =
      (findAssetCandidates (jstr "asset://pic.png") []).find?
        (fun p => p = jstr "pic.png") :=
  claim_C8_findAsset_order _ _ _ (by simp)
    (by
      intro d x hd hx h
      exfalso
      simp only [pathJoin, if_neg hd, if_neg hx] at h
      have h47 : (47 : Nat) ∈ d ++ 47 :: x := by simp
      rw [of_decide_eq_true h] at h47
      exact absurd h47 (by decide))

/-! ## Object get/set lemmas -/

theorem repgo_get_same : ∀ (tl : JsonFields) (k : List Nat) (v : Json),
    Json.get.go (Json.set.rep tl k v) k = (Json.get.go tl k).map (fun _ => v)
  | .nil, k, v => by simp [Json.set.rep, Json.get.go]
  | .cons n w tl, k, v => by
    by_cases hn : n = k
    · simp only [Json.set.rep, if_pos hn, Json.get.go, repgo_get_same tl k v]
      cases hgo : Json.get.go tl k with
      | none => simp [hn]
      | some r => simp
    · simp only [Json.set.rep, if_neg hn, Json.get.go, repgo_get_same tl k v]
      cases hgo : Json.get.go tl k with
      | none => simp [hn]
      | some r => simp

theorem repgo_get_ne : ∀ (tl : JsonFields) (k k' : List Nat) (v : Json), k ≠ k' →
    Json.get.go (Json.set.rep tl k v) k' = Json.get.go tl k'
  | .nil, _, _, _, _ => rfl
  | .cons n w tl, k, k', v, hne => by
    by_cases hn : n = k
    · subst hn
      simp [Json.set.rep, Json.get.go, repgo_get_ne tl _ k' _ hne, hne]
    · simp [Json.set.rep, Json.get.go, hn, repgo_get_ne tl _ k' _ hne]

theorem setgo_get_same : ∀ (fs : JsonFields) (k : List Nat) (v : Json),
    Json.get.go (Json.set.go fs k v) k = some v
  | .nil, k, v => by simp [Json.set.go, Json.get.go]
  | .cons n w tl, k, v => by
    by_cases hn : n = k
    · simp only [Json.set.go, if_pos hn, Json.get.go, repgo_get_same tl k v]
      cases hgo : Json.get.go tl k with
      | none => simp [hn]
      | some r => simp
    · simp [Json.set.go, Json.get.go, hn, setgo_get_same tl k v]

theorem setgo_get_ne : ∀ (fs : JsonFields) (k k' : List Nat) (v : Json), k ≠ k' →
    Json.get.go (Json.set.go fs k v) k' = Json.get.go fs k'
  | .nil, k, k', v, hne => by simp [Json.set.go, Json.get.go, hne]
  | .cons n w tl, k, k', v, hne => by
    by_cases hn : n = k
    · subst hn
      simp [Json.set.go, Json.get.go, repgo_get_ne tl _ k' _ hne, hne]
    · simp [Json.set.go, Json.get.go, hn, setgo_get_ne tl _ _ _ hne]

theorem get_set_same (fs : JsonFields) (k : List Nat) (v : Json) :
    (Json.set (.obj fs) k v).get k = some v := setgo_get_same fs k v

theorem get_set_ne (o : Json) (k k' : List Nat) (v : Json) (hne : k ≠ k') :
    (o.set k v).get k' = o.get k' := by
  cases o with
  | obj fs => exact setgo_get_ne fs k k' v hne
  | null => rfl
  | bool b => rfl
  | num n => rfl
  | str s => rfl
  | arr l => rfl

theorem get_some_truthy (o : Json) (k : List Nat) (v : Json)
    (h : o.get k = some v) : o.truthy = true := by
  cases o <;> simp_all [Json.get, Json.truthy]

/-! ## Claim C5 -/

theorem processPropsFields_go (fsEx : List Nat → Bool) (contentOf : List Nat → Option (List Nat)) (hashFn : List Nat → List Nat) (appDir : List Nat) (searchDirs : List (List Nat)) :
    ∀ (ps : JsonFields) (key : List Nat),
    Json.get.go (processPropsFields fsEx contentOf hashFn appDir searchDirs ps).1 key =
      (Json.get.go ps key).map (processPropStep fsEx contentOf hashFn searchDirs)
  | .nil, key => by simp [processPropsFields, Json.get.go]
  | .cons k p tl, key => by
    have ih := processPropsFields_go fsEx contentOf hashFn appDir searchDirs tl key
    simp only [processPropsFields]
    cases hget : p.get (jstr "url") with
    | none =>
      simp only [hget]
      cases hgo : Json.get.go tl key with
      | none => simp [Json.get.go, ih, hgo, processPropStep, hget]
      | some r => simp [Json.get.go, ih, hgo]
    | some v =>
      cases v with
      | str u =>
        simp only [hget]
        split
        · next htr =>
          simp only [Bool.and_eq_true, decide_eq_true_eq] at htr
          split
          · next originalPath fileName hfa =>
            cases hgo : Json.get.go tl key with
            | none => simp [Json.get.go, ih, hgo, processPropStep, hget, htr.1, htr.2, hfa]
            | some r => simp [Json.get.go, ih, hgo]
          · next hfa =>
            cases hgo : Json.get.go tl key with
            | none => simp [Json.get.go, ih, hgo, processPropStep, hget, htr.1, htr.2, hfa]
            | some r => simp [Json.get.go, ih, hgo]
        · next htr =>
          have htr2 : ¬ (p.truthy = true ∧ ¬ u = []) := by simpa using htr
          cases hgo : Json.get.go tl key with
          | none => simp [Json.get.go, ih, hgo, processPropStep, hget, htr2]
          | some r => simp [Json.get.go, ih, hgo]
      | null =>
        simp only [hget]
        cases hgo : Json.get.go tl key with
        | none => simp [Json.get.go, ih, hgo, processPropStep, hget]
        | some r => simp [Json.get.go, ih, hgo]
      | bool b =>
        simp only [hget]
        cases hgo : Json.get.go tl key with
        | none => simp [Json.get.go, ih, hgo, processPropStep, hget]
        | some r => simp [Json.get.go, ih, hgo]
      | num n =>
        simp only [hget]
        cases hgo : Json.get.go tl key with
        | none => simp [Json.get.go, ih, hgo, processPropStep, hget]
        | some r => simp [Json.get.go, ih, hgo]
      | arr l =>
        simp only [hget]
        cases hgo : Json.get.go tl key with
        | none => simp [Json.get.go, ih, hgo, processPropStep, hget]
        | some r => simp [Json.get.go, ih, hgo]
      | obj fs2 =>
        simp only [hget]
        cases hgo : Json.get.go tl key with
        | none => simp [Json.get.go, ih, hgo, processPropStep, hget]
        | some r => simp [Json.get.go, ih, hgo]

theorem processPropsFields_warn (fsEx : List Nat → Bool) (contentOf : List Nat → Option (List Nat)) (hashFn : List Nat → List Nat) (appDir : List Nat) (searchDirs : List (List Nat)) :
    ∀ (ps : JsonFields) (key : List Nat) (prop : Json) (u : List Nat),
    Json.get.go ps key = some prop →
    prop.get (jstr "url") = some (.str u) →
    u ≠ [] →
    findAsset fsEx u searchDirs = none →
    AssetWarning.missingProp u key ∈
      (processPropsFields fsEx contentOf hashFn appDir searchDirs ps).2.2
  | .nil, key, prop, u, hgo, _, _, _ => by simp [Json.get.go] at hgo
  | .cons k p tl, key, prop, u, hgo, hurl, hne, hfa => by
    simp only [Json.get.go] at hgo
    cases hgotl : Json.get.go tl key with
    | some r =>
      rw [hgotl] at hgo
      simp only [Option.some.injEq] at hgo
      rw [hgo] at hgotl
      have ih := processPropsFields_warn fsEx contentOf hashFn appDir searchDirs
        tl key prop u hgotl hurl hne hfa
      simp only [processPropsFields]
      cases hget : p.get (jstr "url") with
      | none => simpa [hget] using ih
      | some v =>
        cases v with
        | str u2 =>
          simp only [hget]
          split
          · split
            · simp [ih]
            · simp [ih]
          · simp [ih]
        | null => simpa [hget] using ih
        | bool b => simpa [hget] using ih
        | num n => simpa [hget] using ih
        | arr l => simpa [hget] using ih
        | obj fs2 => simpa [hget] using ih
    | none =>
      rw [hgotl] at hgo
      simp only at hgo
      by_cases hk : k = key
      · rw [if_pos hk] at hgo
        simp only [Option.some.injEq] at hgo
        cases hgo
        subst hk
        have htruthy : p.truthy = true := get_some_truthy p _ _ hurl
        simp only [processPropsFields, hurl]
        rw [if_pos (by simp [htruthy, hne])]
        rw [hfa]
        simp
      · rw [if_neg hk] at hgo
        exact Option.noConfusion hgo

theorem processModelStep_get_ne (fsEx : List Nat → Bool) (contentOf : List Nat → Option (List Nat)) (hashFn : List Nat → List Nat) (appDir : List Nat) (searchDirs : List (List Nat)) (b : Json) (k : List Nat) (h : jstr "model" ≠ k) :
    (processModelStep fsEx contentOf hashFn appDir searchDirs b).1.get k = b.get k := by
  unfold processModelStep
  repeat' split
  all_goals first
    | rfl
    | exact get_set_ne _ _ _ _ h

theorem processImageStep_get_ne (fsEx : List Nat → Bool) (contentOf : List Nat → Option (List Nat)) (hashFn : List Nat → List Nat) (appDir : List Nat) (searchDirs : List (List Nat)) (b : Json) (k : List Nat) (h : jstr "image" ≠ k) :
    (processImageStep fsEx contentOf hashFn appDir searchDirs b).1.get k = b.get k := by
  unfold processImageStep
  repeat' split
  all_goals first
    | rfl
    | exact get_set_ne _ _ _ _ h

theorem processPropsStep_get_ne (fsEx : List Nat → Bool) (contentOf : List Nat → Option (List Nat)) (hashFn : List Nat → List Nat) (appDir : List Nat) (searchDirs : List (List Nat)) (b : Json) (k : List Nat) (h : jstr "props" ≠ k) :
    (processPropsStep fsEx contentOf hashFn appDir searchDirs b).1.get k = b.get k := by
  unfold processPropsStep
  repeat' split
  all_goals first
    | rfl
    | exact get_set_ne _ _ _ _ h

/-- C5 (confirmed): for every blueprint field carried by the `processAssets`
visitor — `model`, `image.url`, and each `props` entry's `url` — an
`asset://` reference that resolves to no file in the search path is left
with its exact original value, a missing-asset warning is emitted, and the
operation still returns normally (it is total and throws nothing). -/
theorem claim_C5_missing_assets (fsEx : List Nat → Bool) (contentOf : List Nat → Option (List Nat)) (hashFn : List Nat → List Nat) (appDir : List Nat) (searchDirs : List (List Nat)) (bp : Json) :
    (∀ m, bp.get (jstr "model") = some (.str m) → m ≠ [] →
      findAsset fsEx m searchDirs = none →
      (processAssets fsEx contentOf hashFn appDir searchDirs bp).1.get (jstr "model") =
          some (.str m) ∧
        AssetWarning.missingModel m ∈
          (processAssets fsEx contentOf hashFn appDir searchDirs bp).2.2) ∧
    (∀ image u, bp.get (jstr "image") = some image →
      image.get (jstr "url") = some (.str u) → u ≠ [] →
      findAsset fsEx u searchDirs = none →
      (processAssets fsEx contentOf hashFn appDir searchDirs bp).1.get (jstr "image") =
          some image ∧
        AssetWarning.missingImage u ∈
          (processAssets fsEx contentOf hashFn appDir searchDirs bp).2.2) ∧
    (∀ ps key prop u, bp.get (jstr "props") = some (.obj ps) →
      Json.get.go ps key = some prop →
      prop.get (jstr "url") = some (.str u) → u ≠ [] →
      findAsset fsEx u searchDirs = none →
      (∃ ps2, (processAssets fsEx contentOf hashFn appDir searchDirs bp).1.get (jstr "props") =
          some (.obj ps2) ∧ Json.get.go ps2 key = some prop) ∧
        AssetWarning.missingProp u key ∈
          (processAssets fsEx contentOf hashFn appDir searchDirs bp).2.2) := by
  refine ⟨?_, ?_, ?_⟩
  · intro m hm hne hfa
    have ham : processModelStep fsEx contentOf hashFn appDir searchDirs bp =
        (bp, [], [AssetWarning.missingModel m]) := by
      unfold processModelStep
      rw [hm]
      dsimp only
      rw [if_pos hne, hfa]
    constructor
    · show (processPropsStep fsEx contentOf hashFn appDir searchDirs
        (processImageStep fsEx contentOf hashFn appDir searchDirs
          (processModelStep fsEx contentOf hashFn appDir searchDirs bp).1).1).1.get (jstr "model") = _
      rw [processPropsStep_get_ne _ _ _ _ _ _ _ (by decide),
        processImageStep_get_ne _ _ _ _ _ _ _ (by decide), ham]
      exact hm
    · show _ ∈ (processModelStep fsEx contentOf hashFn appDir searchDirs bp).2.2 ++ _ ++ _
      rw [ham]
      simp
  · intro image u himg hurl hune hfa
    have htr : image.truthy = true := get_some_truthy image _ _ hurl
    have ham1 : (processModelStep fsEx contentOf hashFn appDir searchDirs bp).1.get (jstr "image") =
        some image := by
      rw [processModelStep_get_ne _ _ _ _ _ _ _ (by decide)]
      exact himg
    have hai : processImageStep fsEx contentOf hashFn appDir searchDirs
        (processModelStep fsEx contentOf hashFn appDir searchDirs bp).1 =
        ((processModelStep fsEx contentOf hashFn appDir searchDirs bp).1, [],
          [AssetWarning.missingImage u]) := by
      unfold processImageStep
      rw [ham1]
      dsimp only
      rw [if_pos htr, hurl]
      dsimp only
      rw [if_pos hune, hfa]
    constructor
    · show (processPropsStep fsEx contentOf hashFn appDir searchDirs
        (processImageStep fsEx contentOf hashFn appDir searchDirs
          (processModelStep fsEx contentOf hashFn appDir searchDirs bp).1).1).1.get (jstr "image") = _
      rw [processPropsStep_get_ne _ _ _ _ _ _ _ (by decide), hai]
      exact ham1
    · show _ ∈ _ ++ (processImageStep fsEx contentOf hashFn appDir searchDirs
        (processModelStep fsEx contentOf hashFn appDir searchDirs bp).1).2.2 ++ _
      rw [hai]
      simp
  · intro ps key prop u hprops hgo hurl hune hfa
    have hps2 : (processImageStep fsEx contentOf hashFn appDir searchDirs
        (processModelStep fsEx contentOf hashFn appDir searchDirs bp).1).1.get (jstr "props") =
        some (.obj ps) := by
      rw [processImageStep_get_ne _ _ _ _ _ _ _ (by decide),
        processModelStep_get_ne _ _ _ _ _ _ _ (by decide)]
      exact hprops
    have htr : prop.truthy = true := get_some_truthy prop _ _ hurl
    have hstep : processPropStep fsEx contentOf hashFn searchDirs prop = prop := by
      unfold processPropStep
      rw [hurl]
      dsimp only
      rw [if_pos (by simp [htr, hune]), hfa]
    have hap : processPropsStep fsEx contentOf hashFn appDir searchDirs
        (processImageStep fsEx contentOf hashFn appDir searchDirs
          (processModelStep fsEx contentOf hashFn appDir searchDirs bp).1).1 =
        ((processImageStep fsEx contentOf hashFn appDir searchDirs
            (processModelStep fsEx contentOf hashFn appDir searchDirs bp).1).1.set (jstr "props")
          (.obj (processPropsFields fsEx contentOf hashFn appDir searchDirs ps).1),
          (processPropsFields fsEx contentOf hashFn appDir searchDirs ps).2.1,
          (processPropsFields fsEx contentOf hashFn appDir searchDirs ps).2.2) := by
      unfold processPropsStep
      rw [hps2]
    constructor
    · refine ⟨(processPropsFields fsEx contentOf hashFn appDir searchDirs ps).1, ?_, ?_⟩
      · show (processPropsStep fsEx contentOf hashFn appDir searchDirs
          (processImageStep fsEx contentOf hashFn appDir searchDirs
            (processModelStep fsEx contentOf hashFn appDir searchDirs bp).1).1).1.get (jstr "props") = _
        rw [hap]
        cases hbp2 : (processImageStep fsEx contentOf hashFn appDir searchDirs
            (processModelStep fsEx contentOf hashFn appDir searchDirs bp).1).1 with
        | obj fs2 => exact get_set_same fs2 _ _
        | null => rw [hbp2] at hps2; exact Option.noConfusion hps2
        | bool b => rw [hbp2] at hps2; exact Option.noConfusion hps2
        | num n => rw [hbp2] at hps2; exact Option.noConfusion hps2
        | str s => rw [hbp2] at hps2; exact Option.noConfusion hps2
        | arr l => rw [hbp2] at hps2; exact Option.noConfusion hps2
      · rw [processPropsFields_go fsEx contentOf hashFn appDir searchDirs ps key, hgo]
        simp [hstep]
    · show _ ∈ _ ++ _ ++ (processPropsStep fsEx contentOf hashFn appDir searchDirs
        (processImageStep fsEx contentOf hashFn appDir searchDirs
          (processModelStep fsEx contentOf hashFn appDir searchDirs bp).1).1).2.2
      rw [hap]
      have := processPropsFields_warn fsEx contentOf hashFn appDir searchDirs ps key prop u
        hgo hurl hune hfa
      simp [this]

/-- C5 witness: a blueprint whose `model` is `asset://missing.png` over an
empty filesystem keeps the field verbatim and yields the warning. -/
theorem claim_C5_witness :
    (processAssets (fun _ => false) (fun _ => none) (fun _ => [])
        (jstr "build") [jstr "assets"]
        (.obj (.cons (jstr "model") (.str (jstr "asset://missing.png")) .nil))).1.get
        (jstr "model") = some (.str (jstr "asset://missing.png")) ∧
      AssetWarning.missingModel (jstr "asset://missing.png") ∈
        (processAssets (fun _ => false) (fun _ => none) (fun _ => [])
          (jstr "build") [jstr "assets"]
          (.obj (.cons (jstr "model") (.str (jstr "asset://missing.png")) .nil))).2.2 :=
  (claim_C5_missing_assets (fun _ => false) (fun _ => none) (fun _ => [])
      (jstr "build") [jstr "assets"]
      (.obj (.cons (jstr "model") (.str (jstr "asset://missing.png")) .nil))).1
    (jstr "asset://missing.png") (by rfl) (by decide) (by rfl)

/-! ## Claim C4 -/

theorem lastSeg_append (a b : List Nat) : lastSeg (a ++ 47 :: b) = lastSeg b := by
  simp [lastSeg, List.foldl_append]

theorem pathExtname_join (dir n : List Nat) (hn : n ≠ []) :
    pathExtname (pathJoin dir n) = pathExtname n := by
  unfold pathJoin
  by_cases hd : dir = []
  · rw [if_pos hd]
  · rw [if_neg hd, if_neg hn]
    unfold pathExtname
    rw [lastSeg_append]

theorem pathBasename_join (dir n : List Nat) (hn : n ≠ []) :
    pathBasename (pathJoin dir n) = lastSeg n := by
  unfold pathBasename pathJoin
  by_cases hd : dir = []
  · rw [if_pos hd]
  · rw [if_neg hd, if_neg hn, lastSeg_append]

theorem storeAsset_join (contentOf : List Nat → Option (List Nat))
    (hashFn : List Nat → List Nat) (dir n c : List Nat) (hn : n ≠ [])
    (h : contentOf (pathJoin dir n) = some c) :
    storeAsset contentOf hashFn (pathJoin dir n) =
      some { originalPath := pathJoin dir n, originalName := lastSeg n,
             hash := hashFn c, filename := hashFn c ++ pathExtname n,
             extension := pathExtname n } := by
  unfold storeAsset
  rw [h]
  dsimp only
  rw [pathExtname_join dir n hn, pathBasename_join dir n hn]

theorem rewriteForward_carSkin (contentOf : List Nat → Option (List Nat))
    (hashFn : List Nat → List Nat) (dir id c1 c2 : List Nat)
    (h1 : contentOf (pathJoin dir (jstr "car.glb")) = some c1)
    (h2 : contentOf (pathJoin dir (jstr "skin.png")) = some c2) :
    rewriteForward contentOf hashFn dir id carSkinBp =
      (Json.obj (.cons (jstr "model") (.str (jstr "asset://" ++ (hashFn c1 ++ jstr ".glb")))
        (.cons (jstr "props") (.obj (.cons (jstr "skin")
          (.obj (.cons (jstr "url")
            (.str (jstr "asset://" ++ (hashFn c2 ++ jstr ".png"))) .nil)) .nil)) .nil)),
      [{ originalPath := pathJoin dir (jstr "car.glb"), originalName := jstr "car.glb",
         hash := hashFn c1, filename := hashFn c1 ++ jstr ".glb", extension := jstr ".glb",
         usedInId := id, usedInField := jstr "model" },
       { originalPath := pathJoin dir (jstr "skin.png"), originalName := jstr "skin.png",
         hash := hashFn c2, filename := hashFn c2 ++ jstr ".png", extension := jstr ".png",
         usedInId := id, usedInField := jstr "props." ++ jstr "skin" ++ jstr ".url" }]) := by
  have hsa1 := storeAsset_join contentOf hashFn dir (jstr "car.glb") c1 (by decide) h1
  have hsa2 := storeAsset_join contentOf hashFn dir (jstr "skin.png") c2 (by decide) h2
  rw [show lastSeg (jstr "car.glb") = jstr "car.glb" from rfl,
    show pathExtname (jstr "car.glb") = jstr ".glb" from rfl] at hsa1
  rw [show lastSeg (jstr "skin.png") = jstr "skin.png" from rfl,
    show pathExtname (jstr "skin.png") = jstr ".png" from rfl] at hsa2
  have hgs : ∀ v : Json, (carSkinBp.set (jstr "model") v).get (jstr "script") = none :=
    fun _ => rfl
  have hgi : ∀ v : Json, (carSkinBp.set (jstr "model") v).get (jstr "image") = none :=
    fun _ => rfl
  have hgp : ∀ v : Json, (carSkinBp.set (jstr "model") v).get (jstr "props") =
      some (Json.obj (.cons (jstr "skin")
        (.obj (.cons (jstr "url") (.str (jstr "asset://skin.png")) .nil)) .nil)) :=
    fun _ => rfl
  unfold rewriteForward
  rw [show carSkinBp.get (jstr "model") = some (Json.str (jstr "asset://car.glb")) from rfl]
  dsimp only
  rw [if_pos (show ((jstr "asset://").isPrefixOf (jstr "asset://car.glb")) = true from rfl)]
  rw [show List.drop 8 (jstr "asset://car.glb") = jstr "car.glb" from rfl]
  rw [hsa1]
  dsimp only
  rw [hgs]
  dsimp only
  rw [hgi]
  dsimp only
  rw [hgp]
  dsimp only
  simp only [forwardProps]
  rw [show (Json.obj (.cons (jstr "url") (.str (jstr "asset://skin.png")) .nil)).get
      (jstr "url") = some (Json.str (jstr "asset://skin.png")) from rfl]
  dsimp only
  rw [if_pos (show ((jstr "asset://").isPrefixOf (jstr "asset://skin.png")) = true from rfl)]
  rw [show List.drop 8 (jstr "asset://skin.png") = jstr "skin.png" from rfl]
  rw [hsa2]
  dsimp only [entryOf]
  have hsetu : ∀ x : Json,
      (Json.obj (.cons (jstr "url") (.str (jstr "asset://skin.png")) .nil)).set
        (jstr "url") x = Json.obj (.cons (jstr "url") x .nil) := fun _ => rfl
  have hset1 : ∀ v : Json, carSkinBp.set (jstr "model") v =
      Json.obj (.cons (jstr "model") v (.cons (jstr "props")
        (Json.obj (.cons (jstr "skin")
          (.obj (.cons (jstr "url") (.str (jstr "asset://skin.png")) .nil)) .nil)) .nil)) :=
    fun _ => rfl
  have hset2 : ∀ v x : Json,
      (Json.obj (.cons (jstr "model") v (.cons (jstr "props")
        (Json.obj (.cons (jstr "skin")
          (.obj (.cons (jstr "url") (.str (jstr "asset://skin.png")) .nil)) .nil)) .nil))).set
        (jstr "props") x =
      Json.obj (.cons (jstr "model") v (.cons (jstr "props") x .nil)) := fun _ _ => rfl
  rw [hsetu, hset1, hset2]
  rfl

/-- C4 (corrected): the forward-then-reverse rewriter round trip restores
`model = "asset://car.glb"` and `props.skin.url = "asset://skin.png"`
exactly, for every content store holding both files and every hash function
whose two stored filenames do not collide.  (The collision hypothesis is
essential: the manifest's hash→name map is last-wins, so a second reference
to byte-identical content under another name redirects the first, see the
counterexample.) -/
theorem claim_C4_roundtrip (contentOf : List Nat → Option (List Nat))
    (hashFn : List Nat → List Nat) (dir id c1 c2 : List Nat)
    (h1 : contentOf (pathJoin dir (jstr "car.glb")) = some c1)
    (h2 : contentOf (pathJoin dir (jstr "skin.png")) = some c2)
    (hne : hashFn c1 ++ jstr ".glb" ≠ hashFn c2 ++ jstr ".png") :
    rewriteReverse (manifestPairs (rewriteForward contentOf hashFn dir id carSkinBp).2)
      (rewriteForward contentOf hashFn dir id carSkinBp).1 = carSkinBp := by
  rw [rewriteForward_carSkin contentOf hashFn dir id c1 c2 h1 h2]
  dsimp only [manifestPairs, List.map]
  have hpre : ∀ t : List Nat, ((jstr "asset://").isPrefixOf (jstr "asset://" ++ t)) = true :=
    fun t => by
      rw [show (jstr "asset://" : List Nat) =
        [97, 115, 115, 101, 116, 58, 47, 47] from by decide]
      simp [List.isPrefixOf]
  have hdrop8 : ∀ t : List Nat, List.drop 8 (jstr "asset://" ++ t) = t := fun _ => rfl
  have hlk1 : assetMapLookup
      [(hashFn c1 ++ jstr ".glb", jstr "car.glb"), (hashFn c2 ++ jstr ".png", jstr "skin.png")]
      (hashFn c1 ++ jstr ".glb") = some (jstr "car.glb") := by
    unfold assetMapLookup
    rw [show List.reverse [(hashFn c1 ++ jstr ".glb", jstr "car.glb"),
        (hashFn c2 ++ jstr ".png", jstr "skin.png")] =
      [(hashFn c2 ++ jstr ".png", jstr "skin.png"),
        (hashFn c1 ++ jstr ".glb", jstr "car.glb")] from by simp]
    rw [List.find?_cons_of_neg _ (by simpa using fun h => hne h.symm),
      List.find?_cons_of_pos _ (by simp)]
    rfl
  have hlk2 : assetMapLookup
      [(hashFn c1 ++ jstr ".glb", jstr "car.glb"), (hashFn c2 ++ jstr ".png", jstr "skin.png")]
      (hashFn c2 ++ jstr ".png") = some (jstr "skin.png") := by
    unfold assetMapLookup
    rw [show List.reverse [(hashFn c1 ++ jstr ".glb", jstr "car.glb"),
        (hashFn c2 ++ jstr ".png", jstr "skin.png")] =
      [(hashFn c2 ++ jstr ".png", jstr "skin.png"),
        (hashFn c1 ++ jstr ".glb", jstr "car.glb")] from by simp]
    rw [List.find?_cons_of_pos _ (by simp)]
    rfl
  have hgm : ∀ v w : Json,
      (Json.obj (.cons (jstr "model") v (.cons (jstr "props")
        (Json.obj (.cons (jstr "skin") w .nil)) .nil))).get (jstr "model") = some v :=
    fun _ _ => rfl
  unfold rewriteReverse
  rw [hgm]
  dsimp only
  rw [if_pos (hpre (hashFn c1 ++ jstr ".glb")), hdrop8, hlk1]
  dsimp only
  have hsetm : ∀ v w x : Json,
      (Json.obj (.cons (jstr "model") v (.cons (jstr "props")
        (Json.obj (.cons (jstr "skin") w .nil)) .nil))).set (jstr "model") x =
      Json.obj (.cons (jstr "model") x (.cons (jstr "props")
        (Json.obj (.cons (jstr "skin") w .nil)) .nil)) := fun _ _ _ => rfl
  rw [hsetm]
  have hgsc : ∀ v w : Json,
      (Json.obj (.cons (jstr "model") v (.cons (jstr "props")
        (Json.obj (.cons (jstr "skin") w .nil)) .nil))).get (jstr "script") = none :=
    fun _ _ => rfl
  rw [hgsc]
  dsimp only
  have hgim : ∀ v w : Json,
      (Json.obj (.cons (jstr "model") v (.cons (jstr "props")
        (Json.obj (.cons (jstr "skin") w .nil)) .nil))).get (jstr "image") = none :=
    fun _ _ => rfl
  rw [hgim]
  dsimp only
  have hgpr : ∀ v w : Json,
      (Json.obj (.cons (jstr "model") v (.cons (jstr "props")
        (Json.obj (.cons (jstr "skin") w .nil)) .nil))).get (jstr "props") =
      some (Json.obj (.cons (jstr "skin") w .nil)) := fun _ _ => rfl
  rw [hgpr]
  dsimp only
  simp only [reverseProps]
  have hgu : ∀ v : Json,
      (Json.obj (.cons (jstr "url") v .nil)).get (jstr "url") = some v := fun _ => rfl
  rw [hgu]
  dsimp only
  rw [if_pos (hpre (hashFn c2 ++ jstr ".png")), hdrop8, hlk2]
  dsimp only
  have hsetu : ∀ v x : Json,
      (Json.obj (.cons (jstr "url") v .nil)).set (jstr "url") x =
      Json.obj (.cons (jstr "url") x .nil) := fun _ _ => rfl
  rw [hsetu]
  have hsetp : ∀ v w x : Json,
      (Json.obj (.cons (jstr "model") v (.cons (jstr "props")
        (Json.obj (.cons (jstr "skin") w .nil)) .nil))).set (jstr "props") x =
      Json.obj (.cons (jstr "model") v (.cons (jstr "props") x .nil)) := fun _ _ _ => rfl
  rw [hsetp]
  rfl

set_option maxRecDepth 100000 in
/-- C4 counterexample: with `car2.glb` byte-identical to `car.glb`, a
blueprint additionally holding `script = "asset://car2.glb"` does not round
trip: the manifest's last-wins hash→name map redirects the restored `model`
to `"asset://car2.glb"`, refuting the claim as stated over every blueprint
with the given `model` and `props.skin.url` fields. -/
theorem claim_C4_counterexample :
    ((rewriteReverse
        (manifestPairs (rewriteForward c4ContentOf demoHash (jstr "assets") (jstr "bp1") carDupBp).2)
        (rewriteForward c4ContentOf demoHash (jstr "assets") (jstr "bp1") carDupBp).1).get
          (jstr "model") = some (.str (jstr "asset://car2.glb"))) ∧
    carDupBp.get (jstr "model") = some (.str (jstr "asset://car.glb")) ∧
    (Json.str (jstr "asset://car2.glb")) ≠ (Json.str (jstr "asset://car.glb")) := by
  refine ⟨rfl, rfl, ?_⟩
  simp only [ne_eq, Json.str.injEq]
  decide

set_option maxRecDepth 100000 in
/-- C4 witness: the concrete two-asset store round-trips the scenario
blueprint exactly. -/
theorem claim_C4_witness :
    c4ContentOf (pathJoin (jstr "assets") (jstr "car.glb")) = some [1, 2, 3] ∧
    c4ContentOf (pathJoin (jstr "assets") (jstr "skin.png")) = some [9] ∧
    demoHash [1, 2, 3] ++ jstr ".glb" ≠ demoHash [9] ++ jstr ".png" ∧
    rewriteReverse
      (manifestPairs (rewriteForward c4ContentOf demoHash (jstr "assets") (jstr "bp1") carSkinBp).2)
      (rewriteForward c4ContentOf demoHash (jstr "assets") (jstr "bp1") carSkinBp).1 = carSkinBp :=
  ⟨rfl, rfl, by decide,
    claim_C4_roundtrip c4ContentOf demoHash (jstr "assets") (jstr "bp1") [1, 2, 3] [9]
      rfl rfl (by decide)⟩

/-! ## Claim C6 -/

/-- C6 (confirmed): when the input passes the eager structural checks and the
target database file exists, `packDirectory` without `--force` ends with the
database-conflict fatal error and performs no effect at all, while with
`--force` it proceeds (no fatal error is raised). -/
theorem claim_C6_database_conflict (inp : PackInput)
    (hin : inp.inputDirExists = true) (hdir : inp.inputIsDir = true)
    (hassets : inp.assetsDirExists = true) (hdb : inp.dbExists = true) :
    (inp.force = false →
      Worlds.packDirectory inp =
        { effects := [], fatal := some .databaseConflict, aborted := false }) ∧
    (inp.force = true → (Worlds.packDirectory inp).fatal = none) := by
  constructor
  · intro hf
    simp [Worlds.packDirectory, hin, hdir, hassets, hdb, hf]
  · intro hf
    rcases hp : packPhases inp (metaPairs inp.metadataFile) with ⟨es, ab⟩
    simp [Worlds.packDirectory, hin, hdir, hassets, hdb, hf, hp]

/-- C6 witness: the concrete conflicting invocation fails fatally with no
effects, and the same invocation with `--force` proceeds. -/
theorem claim_C6_witness :
    c6Input.dbExists = true ∧ c6Input.force = false ∧ c6ForceInput.force = true ∧
    Worlds.packDirectory c6Input =
      { effects := [], fatal := some .databaseConflict, aborted := false } ∧
    (Worlds.packDirectory c6ForceInput).fatal = none :=
  ⟨rfl, rfl, rfl,
    (claim_C6_database_conflict c6Input rfl rfl rfl rfl).1 rfl,
    (claim_C6_database_conflict c6ForceInput rfl rfl rfl rfl).2 rfl⟩

/-! ## Claim C7 -/

/-- C7 (corrected): a record whose JSON payload fails to parse is skipped
with processing continuing only during unpack — `extractBlueprints` and
`extractEntities` produce exactly what they produce without the bad row.
During pack the parse is unguarded: a malformed blueprint file ends its
batch — every later file of the kind is ignored and the abort flag is set
(the counterexample shows the skipped remainder and the skipped entity
kind). -/
theorem claim_C7_parse_isolation
    (contentOf : List Nat → Option (List Nat)) (hashFn : List Nat → List Nat)
    (dir : List Nat) (bad : DbRow) (badFile : List Nat)
    (assetPairs : List (List Nat × List Nat))
    (hbadrow : jsonParse bad.data = none) (hbadfile : jsonParse badFile = none) :
    (∀ rows₁ rows₂ : List DbRow,
      extractBlueprintsRows contentOf hashFn dir (rows₁ ++ bad :: rows₂) =
        extractBlueprintsRows contentOf hashFn dir (rows₁ ++ rows₂)) ∧
    (∀ rows₁ rows₂ : List DbRow,
      extractEntitiesRows (rows₁ ++ bad :: rows₂) =
        extractEntitiesRows (rows₁ ++ rows₂)) ∧
    (∀ files₁ files₂ : List (List Nat),
      importBlueprintsFiles assetPairs (files₁ ++ badFile :: files₂) =
        importBlueprintsFiles assetPairs (files₁ ++ [badFile])) ∧
    (∀ files₁ files₂ : List (List Nat),
      (importBlueprintsFiles assetPairs (files₁ ++ badFile :: files₂)).2 = true) := by
  have hbp : ∀ rows₁ rows₂ : List DbRow,
      extractBlueprintsRows contentOf hashFn dir (rows₁ ++ bad :: rows₂) =
        extractBlueprintsRows contentOf hashFn dir (rows₁ ++ rows₂) := by
    intro rows₁ rows₂
    induction rows₁ with
    | nil => simp [extractBlueprintsRows, hbadrow]
    | cons r rs ih =>
      simp only [List.cons_append, extractBlueprintsRows, List.append_eq]
      cases hparse : jsonParse r.data with
      | none => exact ih
      | some d => rw [ih]
  have hent : ∀ rows₁ rows₂ : List DbRow,
      extractEntitiesRows (rows₁ ++ bad :: rows₂) =
        extractEntitiesRows (rows₁ ++ rows₂) := by
    intro rows₁ rows₂
    induction rows₁ with
    | nil => simp [extractEntitiesRows, hbadrow]
    | cons r rs ih =>
      simp only [List.cons_append, extractEntitiesRows, List.append_eq]
      cases hparse : jsonParse r.data with
      | none => exact ih
      | some d => rw [ih]
  have himp : ∀ files₁ files₂ : List (List Nat),
      importBlueprintsFiles assetPairs (files₁ ++ badFile :: files₂) =
        importBlueprintsFiles assetPairs (files₁ ++ [badFile]) := by
    intro files₁ files₂
    induction files₁ with
    | nil => simp [importBlueprintsFiles, hbadfile]
    | cons f fs ih =>
      simp only [List.cons_append, importBlueprintsFiles, List.append_eq]
      cases hparse : jsonParse f with
      | none => rfl
      | some d => rw [ih]
  refine ⟨hbp, hent, himp, fun files₁ files₂ => ?_⟩
  rw [himp files₁ files₂]
  induction files₁ with
  | nil => simp [importBlueprintsFiles, hbadfile]
  | cons f fs ih =>
    simp only [List.cons_append, importBlueprintsFiles, List.append_eq]
    cases hparse : jsonParse f with
    | none => rfl
    | some d =>
      rcases hrec : importBlueprintsFiles assetPairs (fs ++ [badFile]) with ⟨es, ab⟩
      rw [hrec] at ih
      simp only [hrec]
      exact ih

set_option maxRecDepth 100000 in
/-- C7 counterexample: during pack, the malformed first blueprint file
aborts its batch — the well-formed second file (which alone would have been
inserted) is never processed, and the end-to-end run performs only the
schema write, skipping the well-formed entity file entirely — refuting the
claim's pack half. -/
theorem claim_C7_counterexample :
    jsonParse (jstr "nope") = none ∧
    importBlueprintsFiles [] [c7GoodBp] =
      ([DbEffect.blueprintInsert (some (.str (jstr "b2"))) c7GoodBp], false) ∧
    importBlueprintsFiles [] [jstr "nope", c7GoodBp] = ([], true) ∧
    jsonParse c7GoodEntity ≠ none ∧
    Worlds.packDirectory c7PackInput =
      { effects := [DbEffect.schema], fatal := none, aborted := true } := by
  refine ⟨rfl, rfl, rfl, ?_, rfl⟩
  simp [c7GoodEntity, jsonParse_stringify]

set_option maxRecDepth 100000 in
/-- C7 witness: concrete instances of the skip and abort behaviours. -/
theorem claim_C7_witness :
    jsonParse c7BadRow.data = none ∧
    extractBlueprintsRows (fun _ => none) (fun c => c) []
        ([c7GoodRow] ++ c7BadRow :: [c7GoodRow]) =
      extractBlueprintsRows (fun _ => none) (fun c => c) [] ([c7GoodRow] ++ [c7GoodRow]) ∧
    extractEntitiesRows ([c7GoodRow] ++ c7BadRow :: [c7GoodRow]) =
      extractEntitiesRows ([c7GoodRow] ++ [c7GoodRow]) ∧
    importBlueprintsFiles [] ([c7GoodBp] ++ jstr "nope" :: [c7GoodBp]) =
      importBlueprintsFiles [] ([c7GoodBp] ++ [jstr "nope"]) ∧
    (importBlueprintsFiles [] ([c7GoodBp] ++ jstr "nope" :: [c7GoodBp])).2 = true :=
  ⟨rfl,
    (claim_C7_parse_isolation (fun _ => none) (fun c => c) [] c7BadRow (jstr "nope") []
      rfl rfl).1 [c7GoodRow] [c7GoodRow],
    (claim_C7_parse_isolation (fun _ => none) (fun c => c) [] c7BadRow (jstr "nope") []
      rfl rfl).2.1 [c7GoodRow] [c7GoodRow],
    (claim_C7_parse_isolation (fun _ => none) (fun c => c) [] c7BadRow (jstr "nope") []
      rfl rfl).2.2.1 [c7GoodBp] [c7GoodBp],
    (claim_C7_parse_isolation (fun _ => none) (fun c => c) [] c7BadRow (jstr "nope") []
      rfl rfl).2.2.2 [c7GoodBp] [c7GoodBp]⟩

/-! ## Claim C9 -/

theorem set_obj (fs : JsonFields) (k : List Nat) (v : Json) :
    (Json.obj fs).set k v = Json.obj (Json.set.go fs k v) := rfl

/-- C9 (corrected): every `blueprint-update` sets a fresh `updatedAt` and
forces the stored `id`, but the version is incremented (over the stored
version) only when the payload itself carries no `version` field; a
payload-supplied version is stored verbatim, so an update can leave the
version unchanged (see the counterexample, and the deploy path performs
blueprint updates that never touch the version at all). -/
theorem claim_C9_version_update (optionsId now : List Nat) (existing : Json) (fs : JsonFields) :
    ∃ rec : UpdateRecord,
      blueprintUpdateCmd optionsId (Json.stringify existing) (Json.stringify (.obj fs)) now =
        .ok rec ∧
      rec.updatedAt = now ∧
      ∃ stored : Json, jsonParse rec.data = some stored ∧
        stored.get (jstr "id") = some (.str optionsId) ∧
        ((Json.obj fs).get (jstr "version") = none →
          stored.get (jstr "version") =
            some (.num (jsNumOrZero (existing.get (jstr "version")) + 1))) ∧
        (∀ v : Json, (Json.obj fs).get (jstr "version") = some v →
          stored.get (jstr "version") = some v) := by
  unfold blueprintUpdateCmd
  rw [jsonParse_stringify, jsonParse_stringify]
  dsimp only
  have hne_id_ver : (jstr "id" : List Nat) ≠ jstr "version" := by decide
  have hne_ver_id : (jstr "version" : List Nat) ≠ jstr "id" := by decide
  have hgv : ((Json.obj fs).set (jstr "id") (.str optionsId)).get (jstr "version") =
      (Json.obj fs).get (jstr "version") := get_set_ne _ _ _ _ hne_id_ver
  cases hv : (Json.obj fs).get (jstr "version") with
  | none =>
    rw [hgv, hv]
    dsimp only
    refine ⟨_, rfl, rfl, _, jsonParse_stringify _, ?_, ?_, ?_⟩
    · rw [get_set_ne _ _ _ _ hne_ver_id, set_obj]
      exact get_set_same _ _ _
    · intro _
      rw [set_obj, set_obj]
      exact get_set_same _ _ _
    · intro v hv2
      exact Option.noConfusion hv2
  | some v0 =>
    rw [hgv, hv]
    dsimp only
    refine ⟨_, rfl, rfl, _, jsonParse_stringify _, ?_, ?_, ?_⟩
    · rw [set_obj]
      exact get_set_same _ _ _
    · intro h
      exact Option.noConfusion h
    · intro v hv2
      rw [hgv, hv]
      exact hv2

set_option maxRecDepth 100000 in
/-- C9 counterexample: updating a blueprint stored at version 5 with a
payload that itself says `version: 5` stores version 5 again — the update
leaves the version unchanged, refuting the claim that every explicit update
increments it. -/
theorem claim_C9_counterexample :
    blueprintUpdateCmd (jstr "b1") c9Existing c9Payload (jstr "T") =
      .ok { data := Json.stringify (.obj (.cons (jstr "version") (.num 5)
              (.cons (jstr "id") (.str (jstr "b1")) .nil))),
            updatedAt := jstr "T" } ∧
    (Json.obj (.cons (jstr "version") (.num 5)
        (.cons (jstr "id") (.str (jstr "b1")) .nil))).get (jstr "version") =
      some (.num 5) ∧
    (jsonParse c9Existing).bind (fun e => e.get (jstr "version")) = some (.num 5) :=
  ⟨rfl, rfl, rfl⟩

/-! ## Claim C10 -/

/-- C10 (corrected): `entity-update` nulls a truthy payload `state`, stores
a falsy or absent `state` as given, and leaves every field other than
`state` and `id` unchanged — but the payload's `id` is overwritten with the
command's target id before persisting, so a payload id differing from the
target is not written unchanged (see the counterexample). -/
theorem claim_C10_state_nulled (optionsId now : List Nat) (fs : JsonFields) :
    ∃ rec : UpdateRecord,
      entityUpdateCmd optionsId (Json.stringify (.obj fs)) now = .ok rec ∧
      rec.updatedAt = now ∧
      ∃ stored : Json, jsonParse rec.data = some stored ∧
        stored.get (jstr "id") = some (.str optionsId) ∧
        (∀ v : Json, (Json.obj fs).get (jstr "state") = some v → v.truthy = true →
          stored.get (jstr "state") = some Json.null) ∧
        (∀ v : Json, (Json.obj fs).get (jstr "state") = some v → v.truthy = false →
          stored.get (jstr "state") = some v) ∧
        ((Json.obj fs).get (jstr "state") = none → stored.get (jstr "state") = none) ∧
        (∀ k : List Nat, k ≠ jstr "id" → k ≠ jstr "state" →
          stored.get k = (Json.obj fs).get k) := by
  unfold entityUpdateCmd
  rw [jsonParse_stringify]
  dsimp only
  have hne_id_st : (jstr "id" : List Nat) ≠ jstr "state" := by decide
  have hne_st_id : (jstr "state" : List Nat) ≠ jstr "id" := by decide
  have hgs : ((Json.obj fs).set (jstr "id") (.str optionsId)).get (jstr "state") =
      (Json.obj fs).get (jstr "state") := get_set_ne _ _ _ _ hne_id_st
  rw [hgs]
  cases hst : (Json.obj fs).get (jstr "state") with
  | none =>
    dsimp only [jsTruthy]
    rw [if_neg (by simp)]
    refine ⟨_, rfl, rfl, _, jsonParse_stringify _, ?_, ?_, ?_, ?_, ?_⟩
    · rw [set_obj]
      exact get_set_same _ _ _
    · intro v hv _
      exact Option.noConfusion hv
    · intro v hv _
      exact Option.noConfusion hv
    · intro _
      rw [hgs, hst]
    · intro k hk1 _
      exact get_set_ne _ _ _ _ (fun h => hk1 h.symm)
  | some v0 =>
    cases hvt : v0.truthy with
    | true =>
      dsimp only [jsTruthy]
      rw [hvt, if_pos rfl]
      refine ⟨_, rfl, rfl, _, jsonParse_stringify _, ?_, ?_, ?_, ?_, ?_⟩
      · rw [get_set_ne _ _ _ _ hne_st_id, set_obj]
        exact get_set_same _ _ _
      · intro v hv _
        rw [set_obj, set_obj]
        exact get_set_same _ _ _
      · intro v hv hvf
        cases hv
        rw [hvt] at hvf
        exact Bool.noConfusion hvf
      · intro h
        exact Option.noConfusion h
      · intro k hk1 hk2
        rw [get_set_ne _ _ _ _ (fun h => hk2 h.symm),
          get_set_ne _ _ _ _ (fun h => hk1 h.symm)]
    | false =>
      dsimp only [jsTruthy]
      rw [hvt, if_neg (by simp)]
      refine ⟨_, rfl, rfl, _, jsonParse_stringify _, ?_, ?_, ?_, ?_, ?_⟩
      · rw [set_obj]
        exact get_set_same _ _ _
      · intro v hv hvt2
        cases hv
        rw [hvt] at hvt2
        exact Bool.noConfusion hvt2
      · intro v hv _
        cases hv
        rw [hgs]
        exact hst
      · intro h
        exact Option.noConfusion h
      · intro k hk1 _
        exact get_set_ne _ _ _ _ (fun h => hk1 h.symm)

set_option maxRecDepth 100000 in
/-- C10 counterexample: with target id `"a"` and a payload whose own id is
`"b"`, the persisted row's id field is `"a"` — a non-`state` payload field
is not written unchanged, refuting the claim as stated. -/
theorem claim_C10_counterexample :
    entityUpdateCmd (jstr "a") c10Payload (jstr "T") =
      .ok { data := Json.stringify (.obj (.cons (jstr "id") (.str (jstr "a")) .nil)),
            updatedAt := jstr "T" } ∧
    (Json.obj (.cons (jstr "id") (.str (jstr "b")) .nil)).get (jstr "id") =
      some (.str (jstr "b")) ∧
    (jstr "a" : List Nat) ≠ jstr "b" :=
  ⟨rfl, rfl, by decide⟩

/-- C9 witness: the amended statement at a concrete update (stored version
5, payload without a version, so the stored version becomes 6). -/
theorem claim_C9_witness :
    ∃ rec : UpdateRecord,
      blueprintUpdateCmd (jstr "b1")
        (Json.stringify (.obj (.cons (jstr "version") (.num 5) .nil)))
        (Json.stringify (Json.obj .nil)) (jstr "T") = .ok rec ∧
      rec.updatedAt = jstr "T" ∧
      ∃ stored : Json, jsonParse rec.data = some stored ∧
        stored.get (jstr "id") = some (.str (jstr "b1")) ∧
        ((Json.obj JsonFields.nil).get (jstr "version") = none →
          stored.get (jstr "version") =
            some (.num (jsNumOrZero ((Json.obj (.cons (jstr "version") (.num 5) .nil)).get
              (jstr "version")) + 1))) ∧
        (∀ v : Json, (Json.obj JsonFields.nil).get (jstr "version") = some v →
          stored.get (jstr "version") = some v) :=
  claim_C9_version_update (jstr "b1") (jstr "T")
    (.obj (.cons (jstr "version") (.num 5) .nil)) .nil

/-- C10 witness: the amended statement at a concrete update whose payload
carries a truthy `state`. -/
theorem claim_C10_witness :
    ∃ rec : UpdateRecord,
      entityUpdateCmd (jstr "e1")
        (Json.stringify (.obj (.cons (jstr "state") (.num 3) .nil))) (jstr "T") = .ok rec ∧
      rec.updatedAt = jstr "T" ∧
      ∃ stored : Json, jsonParse rec.data = some stored ∧
        stored.get (jstr "id") = some (.str (jstr "e1")) ∧
        (∀ v : Json,
          (Json.obj (.cons (jstr "state") (.num 3) .nil)).get (jstr "state") = some v →
          v.truthy = true → stored.get (jstr "state") = some Json.null) ∧
        (∀ v : Json,
          (Json.obj (.cons (jstr "state") (.num 3) .nil)).get (jstr "state") = some v →
          v.truthy = false → stored.get (jstr "state") = some v) ∧
        ((Json.obj (.cons (jstr "state") (.num 3) .nil)).get (jstr "state") = none →
          stored.get (jstr "state") = none) ∧
        (∀ k : List Nat, k ≠ jstr "id" → k ≠ jstr "state" →
          stored.get k = (Json.obj (.cons (jstr "state") (.num 3) .nil)).get k) :=
  claim_C10_state_nulled (jstr "e1") (jstr "T") (.cons (jstr "state") (.num 3) .nil)
